import Mathlib

/-!
# The raster renderer of package `chart` (`raster_renderer.go`)

A shallow embedding of the PNG/raster renderer and proofs about it.

Conventions of the embedding.

* A Go `float64` is a rational number: only finite values are represented.
  Every arithmetic operation of the source on floats (`r - l`, `xf + radius`,
  `float64(x)`) is the exact result rounded to the nearest binary64 value,
  ties to even (`round64`, with subnormals).  A result of magnitude `2^1024` or
  more, which the hardware replaces by an infinity, is kept as the rounded
  rational: the only thing `MeasureText` does with it is `int(math.Ceil(v))`,
  which is out of the `int` range for both, and in `Circle` no such result
  arises from a 64-bit centre and a finite radius.
* A Go `int` has 64 bits.  Integer arguments are integers of `ℤ`.  The
  conversion `int(v)` of a float truncates when the result fits in 64 bits;
  otherwise its result depends on the implementation and is given by a
  parameter (`amd64OutOfRange` is what amd64 gives).
* The graphics context `*drawing.RasterGraphicContext` lives in package
  `drawing`, whose code is not part of `raster_renderer.go`.  The renderer only
  ever calls methods on it, so the context is represented by the sequence of
  mutating calls it has received (`RasterGraphicContext.calls`).  The calls
  whose results the renderer acts on (`GetStringBounds`,
  `NewRasterGraphicContext`) are parameters of the operations that use them.
  `GetDPI` and `Save` only hand on a result of the context or of the encoder
  and are not embedded.
* What a recorded call does to the context (paints, font, path) is given by a
  separate interpreter, `GCState.step`, written from the specification.
* `image.Rect` and `image.NewRGBA` are the Go standard library functions.
  `image.NewRGBA` panics when the buffer length overflows `int`, and so does
  the allocation when the runtime cannot make a slice of that length (a
  parameter); a panic is the result `none`.
-/

namespace Chart

/-! ## Floating point values -/

/-- A finite `float64`. -/
abbrev Float64 := ℚ

/-- The Go type `error` (a message); a nil error is `none : Option Error`. -/
abbrev Error := String

/-- Rounding to the nearest integer, ties to the even one. -/
def rne (y : ℚ) : ℤ :=
  if Int.fract y < 1 / 2 then ⌊y⌋
  else if 1 / 2 < Int.fract y then ⌊y⌋ + 1
  else if ⌊y⌋ % 2 = 0 then ⌊y⌋
  else ⌊y⌋ + 1

/-- The exponent of the unit in the last place of a binary64 value of the
magnitude of `q`: 53 significant bits, and never below the subnormal spacing
`2^-1074`. -/
def ulpExp (q : ℚ) : ℤ := max (Int.log 2 |q| - 52) (-1074)

/-- The binary64 value nearest to `q ≥ 0`, ties to even. -/
def roundMag (q : ℚ) : ℚ := (rne (q / 2 ^ ulpExp q) : ℚ) * 2 ^ ulpExp q

/-- The binary64 value nearest to `q`, ties to even: the rounding every
`float64` operation applies to its exact result. -/
def round64 (q : ℚ) : Float64 := if 0 ≤ q then roundMag q else -roundMag (-q)

/-- The value `q` is a `float64`: rounding leaves it as it is (53 significant
bits on the grid of multiples of `2^-1074`; no upper limit on the magnitude is
imposed here). -/
def isFloat64 (q : ℚ) : Prop := round64 q = q

instance (q : ℚ) : Decidable (isFloat64 q) := inferInstanceAs (Decidable (round64 q = q))

/-- The Go operator `+` on `float64`. -/
def fadd (a b : Float64) : Float64 := round64 (a + b)

/-- The Go operator `-` on `float64`. -/
def fsub (a b : Float64) : Float64 := round64 (a - b)

/-- The Go conversion `float64(x)` of an `int`. -/
def float64OfInt (x : Int) : Float64 := round64 (x : ℚ)

/-- The Go function `math.Ceil` on a finite value. -/
def mathCeil (v : Float64) : Float64 := ((⌈v⌉ : Int) : ℚ)

/-- The Go conversion `int(v)` of a float: truncation toward zero when the
result fits in 64 bits; otherwise the result depends on the implementation,
and is `outOfRange v`. -/
def goInt (outOfRange : Float64 → Int) (v : Float64) : Int :=
  let z : Int := if 0 ≤ v then ⌊v⌋ else ⌈v⌉
  if -2 ^ 63 ≤ z ∧ z < 2 ^ 63 then z else outOfRange v

/-- What amd64 gives for a float-to-int conversion out of range: the smallest
`int`. -/
def amd64OutOfRange (_ : Float64) : Int := -2 ^ 63

/-! ## Values of the drawing interface -/

/-- The type `drawing.Color`: four 8-bit channels. -/
structure Color where
  R : Nat
  G : Nat
  B : Nat
  A : Nat
  deriving DecidableEq, Repr

/-- A loaded `truetype.Font`, identified by a handle; the renderer keeps only a
reference to it (`*truetype.Font`, nil is `none`). -/
structure Font where
  handle : Nat
  deriving DecidableEq, Repr

/-- The type `Box` of package chart: an integer region. -/
structure Box where
  Top : Int
  Left : Int
  Right : Int
  Bottom : Int
  deriving DecidableEq, Repr

/-! ## The standard library image buffer (`image.Rect`, `image.NewRGBA`) -/

/-- The type `image.Point`. -/
structure Point where
  X : Int
  Y : Int
  deriving DecidableEq, Repr

/-- The type `image.Rectangle`: the points with `Min.X ≤ x < Max.X` and
`Min.Y ≤ y < Max.Y`. -/
structure Rectangle where
  Min : Point
  Max : Point
  deriving DecidableEq, Repr

/-- The function `image.Rect`: shorthand for `Rectangle{Pt(x0, y0), Pt(x1, y1)}`,
with minimum and maximum coordinates swapped if necessary so that the
rectangle is well-formed. -/
def image.Rect (x0 y0 x1 y1 : Int) : Rectangle :=
  let (x0, x1) := if x0 > x1 then (x1, x0) else (x0, x1)
  let (y0, y1) := if y0 > y1 then (y1, y0) else (y0, y1)
  { Min := { X := x0, Y := y0 }, Max := { X := x1, Y := y1 } }

/-- The method `Rectangle.Dx`: the width. -/
def Rectangle.Dx (r : Rectangle) : Int := r.Max.X - r.Min.X

/-- The method `Rectangle.Dy`: the height. -/
def Rectangle.Dy (r : Rectangle) : Int := r.Max.Y - r.Min.Y

/-- The type `image.RGBA`: `Pix` holds four bytes for each pixel. -/
structure RGBA where
  Pix : List Nat
  Stride : Int
  Rect : Rectangle
  deriving DecidableEq, Repr

/-- The function `mul3NonNeg` of package `image`: the product `x * y * z`,
unless an argument is negative or the computation overflows the `int` type
(the product of the first two does not fit in 64 unsigned bits, or the whole
product does not, or it is not a non-negative `int`), in which case `-1`. -/
def image.mul3NonNeg (x y z : Int) : Int :=
  if x < 0 ∨ y < 0 ∨ z < 0 then -1
  else if 2 ^ 64 ≤ x * y then -1
  else if 2 ^ 64 ≤ x * y * z then -1
  else if 2 ^ 63 ≤ x * y * z then -1
  else x * y * z

/-- The function `image.NewRGBA`: a zeroed buffer of `4 * Dx * Dy` bytes with
the given bounds.  It panics (`none`) when that length is negative or
overflows `int`, and when the runtime cannot make a byte slice of that length
(`canMake` tells whether it can). -/
def image.NewRGBA (canMake : Int → Bool) (r : Rectangle) : Option RGBA :=
  let n := image.mul3NonNeg 4 r.Dx r.Dy
  if n < 0 then none
  else if canMake n then
    some { Pix := List.replicate n.toNat 0, Stride := 4 * r.Dx, Rect := r }
  else none

/-- The number of pixels an image buffer holds. -/
def RGBA.pixelCount (m : RGBA) : Nat := m.Pix.length / 4

/-! ## The graphics context as seen from the renderer -/

/-- A mutating call made on the graphics context. -/
inductive GCCall where
  | SetDPI (dpi : Float64)
  | SetStrokeColor (c : Color)
  | SetLineWidth (width : Float64)
  | SetLineDash (dashArray : List Float64) (offset : Float64)
  | SetFillColor (c : Color)
  | MoveTo (x y : Float64)
  | LineTo (x y : Float64)
  | QuadCurveTo (cx cy x y : Float64)
  | Close
  | Stroke
  | Fill
  | FillStroke
  | SetFont (f : Option Font)
  | SetFontSize (size : Float64)
  | CreateStringPath (body : String) (x y : Float64)
  deriving DecidableEq, Repr

/-- The graphics context `*drawing.RasterGraphicContext`, represented by the
calls made on it since its creation, oldest first. -/
structure RasterGraphicContext where
  calls : List GCCall
  deriving DecidableEq, Repr

/-- One more call on the context. -/
def RasterGraphicContext.call (gc : RasterGraphicContext) (c : GCCall) :
    RasterGraphicContext :=
  { calls := gc.calls ++ [c] }

/-- What `gc.GetStringBounds(body)` hands back: four bounds and an error. -/
structure StringBounds where
  left : Float64
  top : Float64
  right : Float64
  bottom : Float64
  err : Option Error
  deriving DecidableEq, Repr

/-! ## The renderer -/

/-- The type `rasterRenderer`: renders chart commands to a bitmap.  The
field `i` is the buffer as allocated; what the context paints on it is
carried by the context. -/
structure rasterRenderer where
  i : RGBA
  gc : RasterGraphicContext
  fontSize : Float64
  fontColor : Option Color
  f : Option Font
  deriving DecidableEq, Repr

/-- The function `PNG`: a new png/raster renderer.  The result is `none` when
`image.NewRGBA` panics; otherwise its first component is the returned
renderer (nil is `none`) and its second the returned error.
`NewRasterGraphicContext` stands for `drawing.NewRasterGraphicContext`. -/
def PNG (canMake : Int → Bool)
    (NewRasterGraphicContext : RGBA → RasterGraphicContext × Option Error)
    (width height : Int) : Option (Option rasterRenderer × Option Error) :=
  match image.NewRGBA canMake (image.Rect 0 0 width height) with
  | none => none
  | some i =>
    let (gc, err) := NewRasterGraphicContext i
    if err = none then
      some (some { i := i, gc := gc, fontSize := 0, fontColor := none, f := none }, none)
    else
      some (none, err)

/-- The method `SetDPI`. -/
def rasterRenderer.SetDPI (rr : rasterRenderer) (dpi : Float64) : rasterRenderer :=
  { rr with gc := rr.gc.call (.SetDPI dpi) }

/-- The method `SetStrokeColor`. -/
def rasterRenderer.SetStrokeColor (rr : rasterRenderer) (c : Color) : rasterRenderer :=
  { rr with gc := rr.gc.call (.SetStrokeColor c) }

/-- The method `SetStrokeWidth`. -/
def rasterRenderer.SetStrokeWidth (rr : rasterRenderer) (width : Float64) : rasterRenderer :=
  { rr with gc := rr.gc.call (.SetLineWidth width) }

/-- The method `SetStrokeDashArray`. -/
def rasterRenderer.SetStrokeDashArray (rr : rasterRenderer) (dashArray : List Float64) :
    rasterRenderer :=
  { rr with gc := rr.gc.call (.SetLineDash dashArray 0) }

/-- The method `SetFillColor`. -/
def rasterRenderer.SetFillColor (rr : rasterRenderer) (c : Color) : rasterRenderer :=
  { rr with gc := rr.gc.call (.SetFillColor c) }

/-- The method `MoveTo`. -/
def rasterRenderer.MoveTo (rr : rasterRenderer) (x y : Int) : rasterRenderer :=
  { rr with gc := rr.gc.call (.MoveTo (float64OfInt x) (float64OfInt y)) }

/-- The method `LineTo`. -/
def rasterRenderer.LineTo (rr : rasterRenderer) (x y : Int) : rasterRenderer :=
  { rr with gc := rr.gc.call (.LineTo (float64OfInt x) (float64OfInt y)) }

/-- The method `Close`. -/
def rasterRenderer.Close (rr : rasterRenderer) : rasterRenderer :=
  { rr with gc := rr.gc.call .Close }

/-- The method `Stroke`. -/
def rasterRenderer.Stroke (rr : rasterRenderer) : rasterRenderer :=
  { rr with gc := rr.gc.call .Stroke }

/-- The method `Fill`. -/
def rasterRenderer.Fill (rr : rasterRenderer) : rasterRenderer :=
  { rr with gc := rr.gc.call .Fill }

/-- The method `FillStroke`. -/
def rasterRenderer.FillStroke (rr : rasterRenderer) : rasterRenderer :=
  { rr with gc := rr.gc.call .FillStroke }

/-- The method `Circle`. -/
def rasterRenderer.Circle (rr : rasterRenderer) (radius : Float64) (x y : Int) :
    rasterRenderer :=
  let xf : Float64 := float64OfInt x
  let yf : Float64 := float64OfInt y
  let gc := rr.gc.call (.MoveTo (fsub xf radius) yf)
  let gc := gc.call (.QuadCurveTo xf yf xf (fsub yf radius))
  let gc := gc.call (.QuadCurveTo xf yf (fadd xf radius) yf)
  let gc := gc.call (.QuadCurveTo xf yf xf (fadd yf radius))
  let gc := gc.call (.QuadCurveTo xf yf (fsub xf radius) yf)
  let gc := gc.call .Close
  let gc := gc.call .FillStroke
  { rr with gc := gc }

/-- The method `SetFont`. -/
def rasterRenderer.SetFont (rr : rasterRenderer) (f : Option Font) : rasterRenderer :=
  { rr with f := f, gc := rr.gc.call (.SetFont f) }

/-- The method `SetFontSize`. -/
def rasterRenderer.SetFontSize (rr : rasterRenderer) (size : Float64) : rasterRenderer :=
  { rr with fontSize := size, gc := rr.gc.call (.SetFontSize size) }

/-- The method `SetFontColor`. -/
def rasterRenderer.SetFontColor (rr : rasterRenderer) (c : Color) : rasterRenderer :=
  { rr with fontColor := some c, gc := (rr.gc.call (.SetFillColor c)).call (.SetStrokeColor c) }

/-- The method `Text`. -/
def rasterRenderer.Text (rr : rasterRenderer) (body : String) (x y : Int) : rasterRenderer :=
  { rr with
    gc := (rr.gc.call (.CreateStringPath body (float64OfInt x) (float64OfInt y))).call .Fill }

/-- The four conditional updates of `MeasureText` (the statements between the
error check and the construction of the box), on the variables `l, t, r, b`
in that order. -/
def normalizeBounds (l t r b : Float64) : Float64 × Float64 × Float64 × Float64 :=
  let (l, r) := if l < 0 then (0, fsub r l) else (l, r)
  let (t, b) := if t < 0 then (0, fsub b t) else (t, b)
  let (l, r) := if l > 0 then (0, fadd r l) else (l, r)
  let (t, b) := if t > 0 then (0, fadd b t) else (t, b)
  (l, t, r, b)

/-- The method `MeasureText`: the height and width in pixels of a string.
`GetStringBounds` stands for the context method of that name, `outOfRange` for
what the platform gives when a float does not fit in an `int`. -/
def rasterRenderer.MeasureText (outOfRange : Float64 → Int)
    (GetStringBounds : RasterGraphicContext → String → StringBounds)
    (rr : rasterRenderer) (body : String) : Box :=
  let sb := GetStringBounds rr.gc body
  if sb.err ≠ none then
    { Top := 0, Left := 0, Right := 0, Bottom := 0 }
  else
    let (l, t, r, b) := normalizeBounds sb.left sb.top sb.right sb.bottom
    { Top := goInt outOfRange (mathCeil t)
      Left := goInt outOfRange (mathCeil l)
      Right := goInt outOfRange (mathCeil r)
      Bottom := goInt outOfRange (mathCeil b) }

/-! ## What the calls do to the context -/

/-- A component of the current path of the context. -/
inductive PathComponent where
  | MoveTo (x y : Float64)
  | LineTo (x y : Float64)
  | QuadCurveTo (cx cy x y : Float64)
  | Close
  | StringPath (body : String) (x y : Float64)
  deriving DecidableEq, Repr

/-- The three ways of rasterizing the current path. -/
inductive PaintOp where
  | Stroke
  | Fill
  | FillStroke
  deriving DecidableEq, Repr

/-- A path rasterized onto the pixel buffer, with the style in force then. -/
structure Painted where
  op : PaintOp
  path : List PathComponent
  fillColor : Color
  strokeColor : Color
  lineWidth : Float64
  dashArray : List Float64
  dashOffset : Float64
  deriving DecidableEq, Repr

/-- Modelled from the spec: the state of the graphics context of package
`drawing` (its code is not in `raster_renderer.go`): current path, current
stroke/fill style (colour, width, dash pattern), current font and size, the
resolution, and what has been rasterized onto the pixel buffer so far (kept
as the list of painted paths instead of pixels). -/
structure GCState where
  dpi : Float64
  strokeColor : Color
  fillColor : Color
  lineWidth : Float64
  dashArray : List Float64
  dashOffset : Float64
  font : Option Font
  fontSize : Float64
  path : List PathComponent
  painted : List Painted
  deriving DecidableEq, Repr

/-- The current path rasterized with the current style, then cleared. -/
def GCState.paint (s : GCState) (op : PaintOp) : GCState :=
  { s with
    painted := s.painted ++
      [{ op := op, path := s.path, fillColor := s.fillColor, strokeColor := s.strokeColor,
         lineWidth := s.lineWidth, dashArray := s.dashArray, dashOffset := s.dashOffset }]
    path := [] }

/-- Modelled from the spec: the effect of each method of the graphics context
of package `drawing` (its code is not in `raster_renderer.go`).  The setters
set the current paint, line thickness, dash pattern, font, size and
resolution; `MoveTo`, `LineTo`, `QuadCurveTo`, `Close` and `CreateStringPath`
append to the current path; `Stroke`, `Fill` and `FillStroke` rasterize the
current path with the current paints and then clear it. -/
def GCState.step (s : GCState) : GCCall → GCState
  | .SetDPI dpi => { s with dpi := dpi }
  | .SetStrokeColor c => { s with strokeColor := c }
  | .SetLineWidth width => { s with lineWidth := width }
  | .SetLineDash dashArray offset => { s with dashArray := dashArray, dashOffset := offset }
  | .SetFillColor c => { s with fillColor := c }
  | .MoveTo x y => { s with path := s.path ++ [.MoveTo x y] }
  | .LineTo x y => { s with path := s.path ++ [.LineTo x y] }
  | .QuadCurveTo cx cy x y => { s with path := s.path ++ [.QuadCurveTo cx cy x y] }
  | .Close => { s with path := s.path ++ [.Close] }
  | .Stroke => s.paint .Stroke
  | .Fill => s.paint .Fill
  | .FillStroke => s.paint .FillStroke
  | .SetFont f => { s with font := f }
  | .SetFontSize size => { s with fontSize := size }
  | .CreateStringPath body x y => { s with path := s.path ++ [.StringPath body x y] }

/-- The state of a context that was created in state `s0`: the calls it has
received, applied in order. -/
def RasterGraphicContext.state (s0 : GCState) (gc : RasterGraphicContext) : GCState :=
  gc.calls.foldl GCState.step s0

/-- A straight or quadratic piece of a path: start point, (control point,) end
point. -/
inductive Segment where
  | line (p0 p1 : Float64 × Float64)
  | quad (p0 c p1 : Float64 × Float64)
  deriving DecidableEq, Repr

/-- Modelled from the spec: the geometry of a path of package `drawing` (its
code is not in `raster_renderer.go`).  `cur` is the current point and `start`
the first point of the current subpath.  `MoveTo` starts a subpath, `LineTo`
and `QuadCurveTo` draw from the current point, `Close` draws a line back to the
start of the subpath; with no current point a drawing component only moves.
Glyph outlines (`StringPath`) are not represented. -/
def segmentsFrom (cur start : Option (Float64 × Float64)) :
    List PathComponent → List Segment
  | [] => []
  | .MoveTo x y :: rest => segmentsFrom (some (x, y)) (some (x, y)) rest
  | .LineTo x y :: rest =>
    match cur with
    | some p => .line p (x, y) :: segmentsFrom (some (x, y)) start rest
    | none => segmentsFrom (some (x, y)) (some (x, y)) rest
  | .QuadCurveTo cx cy x y :: rest =>
    match cur with
    | some p => .quad p (cx, cy) (x, y) :: segmentsFrom (some (x, y)) start rest
    | none => segmentsFrom (some (x, y)) (some (x, y)) rest
  | .Close :: rest =>
    match cur, start with
    | some p, some q => .line p q :: segmentsFrom (some q) start rest
    | _, _ => segmentsFrom cur start rest
  | .StringPath _ _ _ :: rest => segmentsFrom cur start rest

/-- The point at parameter `t` of the straight segment from `p0` to `p1`. -/
def linePoint {K : Type} [Field K] (p0 p1 : K × K) (t : K) : K × K :=
  ((1 - t) * p0.1 + t * p1.1, (1 - t) * p0.2 + t * p1.2)

/-- Modelled from the spec: the quadratic curve segment that `QuadCurveTo` of
package `drawing` adds (its code is not in `raster_renderer.go`): the point at
parameter `t` of the quadratic curve from `p0` to `p1` with control point `c`. -/
def quadPoint {K : Type} [Field K] (p0 c p1 : K × K) (t : K) : K × K :=
  ((1 - t) ^ 2 * p0.1 + 2 * (1 - t) * t * c.1 + t ^ 2 * p1.1,
   (1 - t) ^ 2 * p0.2 + 2 * (1 - t) * t * c.2 + t ^ 2 * p1.2)

/-- The point at parameter `t` of a segment, the parameter ranging over a field
`K` (the rationals to compute, the reals for every point of the curve). -/
def Segment.pointAt {K : Type} [Field K] (s : Segment) (t : K) : K × K :=
  match s with
  | .line p0 p1 => linePoint ((p0.1 : K), (p0.2 : K)) ((p1.1 : K), (p1.2 : K)) t
  | .quad p0 c p1 =>
    quadPoint ((p0.1 : K), (p0.2 : K)) ((c.1 : K), (c.2 : K)) ((p1.1 : K), (p1.2 : K)) t

/-! ## Inputs used to exercise the definitions -/

/-- A renderer on a 2 x 2 buffer whose context has received no call. -/
def sampleRenderer : rasterRenderer :=
  { i := { Pix := List.replicate 16 0, Stride := 8,
           Rect := { Min := { X := 0, Y := 0 }, Max := { X := 2, Y := 2 } } },
    gc := { calls := [] }, fontSize := 0, fontColor := none, f := none }

/-- A context state with nothing on the path and nothing painted. -/
def sampleState : GCState :=
  { dpi := 92, strokeColor := ⟨0, 0, 0, 255⟩, fillColor := ⟨255, 255, 255, 255⟩,
    lineWidth := 1, dashArray := [], dashOffset := 0, font := none, fontSize := 10,
    path := [], painted := [] }

/-- A bounds call that succeeds on every string, with a negative left offset
and a positive top offset. -/
def sampleBounds (_ : RasterGraphicContext) (_ : String) : StringBounds :=
  { left := -1 / 2, top := 1, right := 3, bottom := 2, err := none }

/-- A bounds call that succeeds on every string, with positive left and top
offsets. -/
def offsetBounds (_ : RasterGraphicContext) (_ : String) : StringBounds :=
  { left := 2, top := 1, right := 5, bottom := 4, err := none }

/-- A bounds call that succeeds on every string, with a right bound beyond the
`int` range (`10^19 > 2^63`). -/
def hugeBounds (_ : RasterGraphicContext) (_ : String) : StringBounds :=
  { left := 0, top := 0, right := 10 ^ 19, bottom := 1, err := none }

/-- A bounds call that succeeds on every string, with a left offset `-2^-60`
that the subtraction from the right bound `1` loses. -/
def tinyOffsetBounds (_ : RasterGraphicContext) (_ : String) : StringBounds :=
  { left := -1 / 2 ^ 60, top := 0, right := 1, bottom := 1, err := none }

/-- A bounds call that fails on every string and still hands back bounds. -/
def failingBounds (_ : RasterGraphicContext) (_ : String) : StringBounds :=
  { left := 1, top := 2, right := 3, bottom := 4, err := some "no font" }

/-- A context creation that always succeeds, with a context that has received
no call. -/
def sampleNewContext (_ : RGBA) : RasterGraphicContext × Option Error :=
  ({ calls := [] }, none)

/-- A context creation that always fails. -/
def failingNewContext (_ : RGBA) : RasterGraphicContext × Option Error :=
  ({ calls := [] }, some "invalid image type")

/-- A runtime that can make a slice of any length. -/
def unlimitedMake (_ : Int) : Bool := true

/-! ## Rounding to binary64 -/

/-- An integer rounds to itself. -/
theorem rne_intCast (n : ℤ) : rne (n : ℚ) = n := by
  simp [rne]

/-- Rounding to the nearest integer is monotone. -/
theorem rne_mono {y z : ℚ} (h : y ≤ z) : rne y ≤ rne z := by
  have hfl : ⌊y⌋ ≤ ⌊z⌋ := Int.floor_mono h
  have hy1 : rne y ≤ ⌊y⌋ + 1 := by unfold rne; split_ifs <;> omega
  have hz0 : ⌊z⌋ ≤ rne z := by unfold rne; split_ifs <;> omega
  rcases hfl.lt_or_eq with hlt | heq
  · omega
  · have hfr : Int.fract y ≤ Int.fract z := by
      have h1 := Int.floor_add_fract y
      have h2 := Int.floor_add_fract z
      have : ((⌊y⌋ : ℤ) : ℚ) = ⌊z⌋ := by rw [heq]
      linarith
    unfold rne
    rw [heq]
    split_ifs <;> first | omega | linarith

/-- Powers of two are positive. -/
theorem two_zpow_pos (e : ℤ) : (0 : ℚ) < 2 ^ e := zpow_pos (by norm_num) e

/-- The unit in the last place is at least the subnormal spacing. -/
theorem ulpExp_ge (q : ℚ) : -1074 ≤ ulpExp q := le_max_right _ _

/-- The unit in the last place leaves at most 53 significant bits. -/
theorem log_le_ulpExp (q : ℚ) : Int.log 2 |q| - 52 ≤ ulpExp q := le_max_left _ _

/-- The exponent `k` with `2^k ≤ q < 2^(k+1)` is the logarithm. -/
theorem log_eq_of_bounds {q : ℚ} {k : ℤ} (h1 : (2 : ℚ) ^ k ≤ q) (h2 : q < 2 ^ (k + 1)) :
    Int.log 2 q = k := by
  have hq : 0 < q := lt_of_lt_of_le (two_zpow_pos k) h1
  have a : k ≤ Int.log 2 q :=
    (Int.zpow_le_iff_le_log (by norm_num) hq).mp (by simpa using h1)
  have b : Int.log 2 q < k + 1 :=
    (Int.lt_zpow_iff_log_lt (by norm_num) hq).mp (by simpa using h2)
  omega

/-- A positive value is at least the power of two of its logarithm. -/
theorem zpow_log_le {q : ℚ} (hq : 0 < q) : (2 : ℚ) ^ Int.log 2 q ≤ q := by
  simpa using Int.zpow_log_le_self (b := 2) (by norm_num) hq

/-- A value is below the next power of two after its logarithm. -/
theorem lt_zpow_log_succ (q : ℚ) : q < (2 : ℚ) ^ (Int.log 2 q + 1) := by
  simpa using Int.lt_zpow_succ_log_self (b := 2) (by norm_num) q

/-- A positive value scaled by its unit in the last place is below `2^53`. -/
theorem scaled_lt {q : ℚ} (hq : 0 < q) : q / 2 ^ ulpExp q < 2 ^ (53 : ℤ) := by
  rw [div_lt_iff₀ (two_zpow_pos _), ← zpow_add₀ (by norm_num : (2 : ℚ) ≠ 0)]
  have h1 := lt_zpow_log_succ q
  have h2 : Int.log 2 q + 1 ≤ 53 + ulpExp q := by
    have := log_le_ulpExp q
    rw [abs_of_pos hq] at this
    omega
  exact lt_of_lt_of_le h1 (zpow_le_zpow_right₀ (by norm_num) h2)

/-- A value in the normal range scaled by its unit in the last place is at least `2^52`. -/
theorem le_scaled {q : ℚ} (hq : 0 < q) (hn : -1074 < ulpExp q) :
    (2 : ℚ) ^ (52 : ℤ) ≤ q / 2 ^ ulpExp q := by
  rw [le_div_iff₀ (two_zpow_pos _), ← zpow_add₀ (by norm_num : (2 : ℚ) ≠ 0)]
  have h2 : ulpExp q = Int.log 2 q - 52 := by
    unfold ulpExp at hn ⊢
    rw [abs_of_pos hq] at hn ⊢
    omega
  rw [h2]
  have : (52 : ℤ) + (Int.log 2 q - 52) = Int.log 2 q := by ring
  rw [this]
  exact zpow_log_le hq

/-- A non-negative value rounds to a non-negative integer. -/
theorem rne_nonneg {y : ℚ} (h : 0 ≤ y) : 0 ≤ rne y := by
  have := rne_mono h
  rwa [show rne (0 : ℚ) = 0 from by simpa using rne_intCast 0] at this

/-- Zero rounds to zero. -/
theorem roundMag_zero : roundMag 0 = 0 := by
  simp [roundMag, show rne (0 : ℚ) = 0 from by simpa using rne_intCast 0]

/-- A value `m * 2^e` with `0 ≤ m < 2^53` and `e ≥ -1074` is its own rounding. -/
theorem roundMag_repr (m e : ℤ) (hm0 : 0 ≤ m) (hm : m < 2 ^ 53) (he : -1074 ≤ e) :
    roundMag ((m : ℚ) * 2 ^ e) = (m : ℚ) * 2 ^ e := by
  rcases hm0.lt_or_eq with hpos | rfl
  · have hmq : (0 : ℚ) < m := by exact_mod_cast hpos
    have hv : (0 : ℚ) < (m : ℚ) * 2 ^ e := mul_pos hmq (two_zpow_pos e)
    have hlt : (m : ℚ) * 2 ^ e < 2 ^ (e + 53) := by
      rw [zpow_add₀ (by norm_num : (2 : ℚ) ≠ 0), mul_comm ((2 : ℚ) ^ e)]
      apply mul_lt_mul_of_pos_right _ (two_zpow_pos e)
      exact_mod_cast hm
    have hlog : Int.log 2 ((m : ℚ) * 2 ^ e) < e + 53 :=
      (Int.lt_zpow_iff_log_lt (by norm_num) hv).mp (by simpa using hlt)
    have hE : ulpExp ((m : ℚ) * 2 ^ e) ≤ e := by
      unfold ulpExp
      rw [abs_of_pos hv]
      exact max_le (by omega) he
    obtain ⟨d, hd⟩ := Int.eq_ofNat_of_zero_le (sub_nonneg.mpr hE)
    have he2 : e = ulpExp ((m : ℚ) * 2 ^ e) + d := by omega
    have hsc : (m : ℚ) * 2 ^ e / 2 ^ ulpExp ((m : ℚ) * 2 ^ e) = ((m * 2 ^ d : ℤ) : ℚ) := by
      rw [div_eq_iff (two_zpow_pos _).ne']
      nth_rewrite 1 [he2]
      rw [zpow_add₀ (by norm_num : (2 : ℚ) ≠ 0), zpow_natCast]
      push_cast
      ring
    unfold roundMag
    rw [hsc, rne_intCast, ← hsc, div_mul_cancel₀ _ (two_zpow_pos _).ne']
  · simp [roundMag_zero]

/-- A value `m * 2^e` with `|m| < 2^53` and `e ≥ -1074` is a `float64`. -/
theorem round64_repr (m e : ℤ) (hm : |m| < 2 ^ 53) (he : -1074 ≤ e) :
    round64 ((m : ℚ) * 2 ^ e) = (m : ℚ) * 2 ^ e := by
  have habs := abs_lt.mp hm
  unfold round64
  split_ifs with h
  · have hm0 : 0 ≤ m := by
      by_contra hneg
      have : (m : ℚ) < 0 := by exact_mod_cast not_le.mp hneg
      have := mul_neg_of_neg_of_pos this (two_zpow_pos e)
      linarith
    exact roundMag_repr m e hm0 habs.2 he
  · have hm0 : m < 0 := by
      by_contra hneg
      have : (0 : ℚ) ≤ m := by exact_mod_cast not_lt.mp hneg
      exact h (mul_nonneg this (two_zpow_pos e).le)
    have := roundMag_repr (-m) e (by omega) (by omega) he
    push_cast at this
    rw [neg_mul] at this
    rw [this]
    ring

/-- Small integers are `float64` values. -/
theorem round64_intCast (n : ℤ) (hn : |n| < 2 ^ 53) : round64 (n : ℚ) = n := by
  have := round64_repr n 0 hn (by norm_num)
  simpa using this

/-- The rounding of a non-negative value is `m * 2^e` with `0 ≤ m < 2^53`, `e ≥ -1074`. -/
theorem roundMag_form {q : ℚ} (hq : 0 ≤ q) :
    ∃ m e : ℤ, 0 ≤ m ∧ m < 2 ^ 53 ∧ -1074 ≤ e ∧ roundMag q = (m : ℚ) * 2 ^ e := by
  rcases hq.lt_or_eq with hpos | rfl
  · have h1 : rne (q / 2 ^ ulpExp q) ≤ 2 ^ 53 := by
      have := rne_mono (scaled_lt hpos).le
      have e : ((2 : ℚ) ^ (53 : ℤ)) = (((2 : ℤ) ^ 53 : ℤ) : ℚ) := by norm_num
      rwa [e, rne_intCast] at this
    have h0 : 0 ≤ rne (q / 2 ^ ulpExp q) := rne_nonneg (div_nonneg hq (two_zpow_pos _).le)
    rcases h1.lt_or_eq with hlt | heq
    · exact ⟨_, _, h0, hlt, ulpExp_ge q, rfl⟩
    · refine ⟨2 ^ 52, ulpExp q + 1, by norm_num, by norm_num, by have := ulpExp_ge q; omega, ?_⟩
      unfold roundMag
      rw [heq, zpow_add₀ (by norm_num : (2 : ℚ) ≠ 0)]
      push_cast
      ring
  · exact ⟨0, 0, le_refl _, by norm_num, by norm_num, by simp [roundMag_zero]⟩

/-- Every `float64` value is a multiple of `2^-1074`. -/
theorem round64_grid (q : ℚ) : ∃ n : ℤ, round64 q = (n : ℚ) * 2 ^ (-1074 : ℤ) := by
  have key : ∀ p : ℚ, 0 ≤ p → ∃ n : ℤ, roundMag p = (n : ℚ) * 2 ^ (-1074 : ℤ) := by
    intro p hp
    obtain ⟨m, e, -, -, he, h⟩ := roundMag_form hp
    obtain ⟨d, hd⟩ := Int.eq_ofNat_of_zero_le (show 0 ≤ e + 1074 by omega)
    refine ⟨m * 2 ^ d, ?_⟩
    rw [h, show e = (d : ℤ) + (-1074) by omega, zpow_add₀ (by norm_num : (2 : ℚ) ≠ 0),
      zpow_natCast]
    push_cast
    ring
  by_cases h : 0 ≤ q
  · obtain ⟨n, hn⟩ := key q h
    exact ⟨n, by simp [round64, h, hn]⟩
  · obtain ⟨n, hn⟩ := key (-q) (by linarith [not_le.mp h])
    exact ⟨-n, by simp [round64, h, hn]⟩

/-- A positive multiple of `2^-1074` rounds to a positive value. -/
theorem round64_pos_of_grid {q : ℚ} (hq : 0 < q) (n : ℤ) (hn : q = (n : ℚ) * 2 ^ (-1074 : ℤ)) :
    0 < round64 q := by
  have hn1 : 1 ≤ n := by
    by_contra hcon
    have : (n : ℚ) ≤ 0 := by exact_mod_cast (by omega : n ≤ 0)
    have := mul_nonpos_of_nonpos_of_nonneg this (two_zpow_pos (-1074)).le
    linarith
  have hge : (2 : ℚ) ^ (-1074 : ℤ) ≤ q := by
    rw [hn]
    have : (1 : ℚ) ≤ n := by exact_mod_cast hn1
    nlinarith [two_zpow_pos (-1074)]
  have hsc : 1 ≤ q / 2 ^ ulpExp q := by
    rcases (ulpExp_ge q).lt_or_eq with hlt | heq
    · have := le_scaled hq hlt
      have : (1 : ℚ) ≤ 2 ^ (52 : ℤ) := by norm_num
      linarith
    · rw [← heq, le_div_iff₀ (two_zpow_pos _)]
      linarith
  have h1 : 1 ≤ rne (q / 2 ^ ulpExp q) := by
    have := rne_mono hsc
    rwa [show rne (1 : ℚ) = 1 from by simpa using rne_intCast 1] at this
  have h1q : (1 : ℚ) ≤ (rne (q / 2 ^ ulpExp q) : ℚ) := by exact_mod_cast h1
  have : round64 q = roundMag q := by simp [round64, hq.le]
  rw [this]
  unfold roundMag
  exact mul_pos (by linarith) (two_zpow_pos _)

/-- A value less than half above an integer rounds down to it. -/
theorem rne_of_lt_half (n : ℤ) (y : ℚ) (h1 : (n : ℚ) ≤ y) (h2 : y < n + 1 / 2) : rne y = n := by
  have hf : ⌊y⌋ = n := Int.floor_eq_iff.mpr ⟨h1, by linarith⟩
  have hfr : Int.fract y < 1 / 2 := by
    have := Int.floor_add_fract y
    rw [hf] at this
    linarith
  simp only [rne, hfr, hf, if_true]

/-- A value more than half above an integer rounds up. -/
theorem rne_of_gt_half (n : ℤ) (y : ℚ) (h1 : (n : ℚ) + 1 / 2 < y) (h2 : y < n + 1) :
    rne y = n + 1 := by
  have hf : ⌊y⌋ = n := Int.floor_eq_iff.mpr ⟨by linarith, h2⟩
  have hfr : 1 / 2 < Int.fract y := by
    have := Int.floor_add_fract y
    rw [hf] at this
    linarith
  have hfr2 : ¬ Int.fract y < 1 / 2 := by linarith
  simp only [rne, hfr, hfr2, hf, if_true, if_false]

/-- The rounding of a positive value with `2^k ≤ q < 2^(k+1)`. -/
theorem round64_eval (q : ℚ) (k n : ℤ) (h1 : (2 : ℚ) ^ k ≤ q) (h2 : q < 2 ^ (k + 1))
    (hr : rne (q / 2 ^ max (k - 52) (-1074)) = n) :
    round64 q = (n : ℚ) * 2 ^ max (k - 52) (-1074) := by
  have hq : 0 < q := lt_of_lt_of_le (two_zpow_pos k) h1
  have hE : ulpExp q = max (k - 52) (-1074) := by
    unfold ulpExp
    rw [abs_of_pos hq, log_eq_of_bounds h1 h2]
  simp only [round64, hq.le, if_true, roundMag, hE, hr]

/-- The sum of two values whose exact sum is `m * 2^e`, `|m| < 2^53`, `e ≥ -1074`,
is exact. -/
theorem fadd_exact (a b : Float64) (m e : ℤ) (h : a + b = (m : ℚ) * 2 ^ e) (hm : |m| < 2 ^ 53)
    (he : -1074 ≤ e) : fadd a b = a + b := by
  unfold fadd
  rw [h]
  exact round64_repr m e hm he

/-- The difference of two values whose exact difference is `m * 2^e`,
`|m| < 2^53`, `e ≥ -1074`, is exact. -/
theorem fsub_exact (a b : Float64) (m e : ℤ) (h : a - b = (m : ℚ) * 2 ^ e) (hm : |m| < 2 ^ 53)
    (he : -1074 ≤ e) : fsub a b = a - b := by
  unfold fsub
  rw [h]
  exact round64_repr m e hm he

/-- A value `m * 2^e` with `|m| < 2^53` and `e ≥ -1074` is a `float64`. -/
theorem isFloat64_of_repr (q : ℚ) (m e : ℤ) (h : q = (m : ℚ) * 2 ^ e) (hm : |m| < 2 ^ 53)
    (he : -1074 ≤ e) : isFloat64 q := by
  unfold isFloat64
  rw [h]
  exact round64_repr m e hm he

/-- The sum of a `float64` and the magnitude of another, when positive, rounds
to a positive value. -/
theorem fadd_abs_pos (r l : Float64) (hr : isFloat64 r) (hl : isFloat64 l)
    (h : 0 < r + |l|) : 0 < fadd r |l| := by
  obtain ⟨n1, h1⟩ := round64_grid r
  obtain ⟨n2, h2⟩ := round64_grid l
  rw [hr] at h1
  rw [hl] at h2
  refine round64_pos_of_grid h (n1 + |n2|) ?_
  have e : |l| = ((|n2| : ℤ) : ℚ) * 2 ^ (-1074 : ℤ) := by
    rw [h2, abs_mul, abs_of_pos (two_zpow_pos (-1074))]
    push_cast
    rfl
  rw [e]
  nth_rewrite 1 [h1]
  push_cast
  ring

/-! ## Text measurement -/

/-- Converting a ceiling that fits in 64 bits back to an integer gives the
ceiling. -/
theorem goInt_mathCeil (conv : Float64 → Int) (v : Float64) (h1 : -2 ^ 63 ≤ ⌈v⌉)
    (h2 : ⌈v⌉ < 2 ^ 63) : goInt conv (mathCeil v) = ⌈v⌉ := by
  unfold goInt mathCeil
  have e : (if (0 : ℚ) ≤ ((⌈v⌉ : ℤ) : ℚ) then ⌊((⌈v⌉ : ℤ) : ℚ)⌋ else ⌈((⌈v⌉ : ℤ) : ℚ)⌉) = ⌈v⌉ := by
    split_ifs <;> simp
  simp only [e]
  rw [if_pos ⟨h1, h2⟩]

/-- Zero rounds up and converts to zero. -/
theorem goInt_mathCeil_zero (conv : Float64 → Int) : goInt conv (mathCeil 0) = 0 := by
  have := goInt_mathCeil conv 0 (by simp) (by simp)
  simpa using this

/-- The four conditional updates move the box to the origin; a negative offset
is subtracted from the opposite extent, a positive one is added to it, and a
zero offset leaves it as it is. -/
theorem normalizeBounds_cases (l t r b : Float64) :
    normalizeBounds l t r b =
      (0, 0, if l < 0 then fsub r l else if 0 < l then fadd r l else r,
        if t < 0 then fsub b t else if 0 < t then fadd b t else b) := by
  unfold normalizeBounds
  rcases lt_trichotomy l 0 with hl | hl | hl <;>
    rcases lt_trichotomy t 0 with ht | ht | ht
  all_goals first
    | subst hl; subst ht; simp
    | subst hl; simp [ht, not_lt.mpr ht.le]
    | subst ht; simp [hl, not_lt.mpr hl.le]
    | simp [hl, ht, not_lt.mpr hl.le, not_lt.mpr ht.le]

/-- For `float64` bounds the normalized extents are the right and bottom
bounds plus the magnitude of the left and top offsets. -/
theorem normalizeBounds_abs (l t r b : Float64) (hr : isFloat64 r) (hb : isFloat64 b) :
    normalizeBounds l t r b = (0, 0, fadd r |l|, fadd b |t|) := by
  rw [normalizeBounds_cases]
  have e : ∀ u v : ℚ, isFloat64 v →
      (if u < 0 then fsub v u else if 0 < u then fadd v u else v) = fadd v |u| := by
    intro u v hv
    rcases lt_trichotomy u 0 with hu | hu | hu
    · rw [if_pos hu, abs_of_neg hu]
      unfold fsub fadd
      rw [sub_eq_add_neg]
    · subst hu
      simp only [lt_irrefl, if_false, abs_zero]
      unfold fadd
      rw [add_zero]
      exact hv.symm
    · rw [if_neg (not_lt.mpr hu.le), if_pos hu, abs_of_pos hu]
  rw [e l r hr, e t b hb]

/-- On a successful bounds call the measured box is the normalized box with
each edge rounded up and converted to `int`. -/
theorem MeasureText_of_ok (conv : Float64 → Int)
    (G : RasterGraphicContext → String → StringBounds)
    (rr : rasterRenderer) (body : String) (h : (G rr.gc body).err = none) :
    rr.MeasureText conv G body =
      { Top := 0, Left := 0
        Right := goInt conv (mathCeil
          (normalizeBounds (G rr.gc body).left (G rr.gc body).top (G rr.gc body).right
            (G rr.gc body).bottom).2.2.1)
        Bottom := goInt conv (mathCeil
          (normalizeBounds (G rr.gc body).left (G rr.gc body).top (G rr.gc body).right
            (G rr.gc body).bottom).2.2.2) } := by
  unfold rasterRenderer.MeasureText
  simp only [h, ne_eq, not_true_eq_false, if_false, normalizeBounds_cases, goInt_mathCeil_zero]

/-- An error from the bounds call gives the all-zero box. -/
theorem MeasureText_of_err (conv : Float64 → Int)
    (G : RasterGraphicContext → String → StringBounds)
    (rr : rasterRenderer) (body : String) (h : (G rr.gc body).err ≠ none) :
    rr.MeasureText conv G body = { Top := 0, Left := 0, Right := 0, Bottom := 0 } := by
  unfold rasterRenderer.MeasureText
  simp [h]

/-- On a successful bounds call with `float64` bounds whose rounded-up extents
fit in 64 bits, the measured box is `(0, 0, ceil(r + |l|), ceil(b + |t|))`, the
additions being those of `float64`. -/
theorem MeasureText_in_range (conv : Float64 → Int)
    (G : RasterGraphicContext → String → StringBounds)
    (rr : rasterRenderer) (body : String) (h : (G rr.gc body).err = none)
    (fr : isFloat64 (G rr.gc body).right) (fb : isFloat64 (G rr.gc body).bottom)
    (hr1 : -2 ^ 63 ≤ ⌈fadd (G rr.gc body).right |(G rr.gc body).left|⌉)
    (hr2 : ⌈fadd (G rr.gc body).right |(G rr.gc body).left|⌉ < 2 ^ 63)
    (hb1 : -2 ^ 63 ≤ ⌈fadd (G rr.gc body).bottom |(G rr.gc body).top|⌉)
    (hb2 : ⌈fadd (G rr.gc body).bottom |(G rr.gc body).top|⌉ < 2 ^ 63) :
    rr.MeasureText conv G body =
      { Top := 0, Left := 0
        Right := ⌈fadd (G rr.gc body).right |(G rr.gc body).left|⌉
        Bottom := ⌈fadd (G rr.gc body).bottom |(G rr.gc body).top|⌉ } := by
  rw [MeasureText_of_ok conv G rr body h, normalizeBounds_abs _ _ _ _ fr fb]
  simp only [goInt_mathCeil conv _ hr1 hr2, goInt_mathCeil conv _ hb1 hb2]

/-- The box measured for the bounds `(0, 0, 10^19, 1)` with the amd64
conversion: the right edge is out of the `int` range and becomes `-2^63`. -/
theorem MeasureText_hugeBounds :
    sampleRenderer.MeasureText amd64OutOfRange hugeBounds "abc" =
      { Top := 0, Left := 0, Right := -2 ^ 63, Bottom := 1 } := by
  rw [MeasureText_of_ok amd64OutOfRange hugeBounds sampleRenderer "abc" rfl,
    normalizeBounds_cases]
  have e1 : goInt amd64OutOfRange (mathCeil (10 ^ 19)) = -2 ^ 63 := by
    have c : ((10 : ℚ) ^ 19) = ((10 ^ 19 : ℤ) : ℚ) := by norm_num
    unfold goInt mathCeil
    rw [c, Int.ceil_intCast]
    have z : (0 : ℚ) ≤ ((10 ^ 19 : ℤ) : ℚ) := by norm_num
    simp only [z, if_true, Int.floor_intCast]
    rw [if_neg (by norm_num)]
    rfl
  have e2 : goInt amd64OutOfRange (mathCeil 1) = 1 := by
    have := goInt_mathCeil amd64OutOfRange 1 (by simp) (by simp)
    simpa using this
  simp only [hugeBounds, lt_irrefl, if_false, e1, e2]

/-- The box measured for the bounds `(-2^-60, 0, 1, 1)`: the subtraction
`1 - (-2^-60)` rounds to `1`. -/
theorem MeasureText_tinyOffsetBounds :
    sampleRenderer.MeasureText amd64OutOfRange tinyOffsetBounds "abc" =
      { Top := 0, Left := 0, Right := 1, Bottom := 1 } := by
  rw [MeasureText_of_ok amd64OutOfRange tinyOffsetBounds sampleRenderer "abc" rfl,
    normalizeBounds_cases]
  have r1 : fsub 1 (-1 / 2 ^ 60) = 1 := by
    unfold fsub
    have h := round64_eval (1 - -1 / 2 ^ 60) 0 (2 ^ 52) (by norm_num) (by norm_num)
      (rne_of_lt_half _ _ (by norm_num) (by norm_num))
    rw [h]
    norm_num
  have e2 : goInt amd64OutOfRange (mathCeil 1) = 1 := by
    have := goInt_mathCeil amd64OutOfRange 1 (by simp) (by simp)
    simpa using this
  have hneg : (-1 / 2 ^ 60 : ℚ) < 0 := by norm_num
  simp only [tinyOffsetBounds, hneg, if_true, lt_irrefl, if_false, r1, e2]

/-- The bounds `(-1/2, 1, 3, 2)` are `float64` values and their normalized
extents are `7/2` and `3`. -/
theorem sampleBounds_facts :
    isFloat64 (-1 / 2) ∧ isFloat64 1 ∧ isFloat64 3 ∧ isFloat64 2 ∧
      fadd 3 |(-1 / 2 : ℚ)| = 7 / 2 ∧ fadd 2 |(1 : ℚ)| = 3 := by
  refine ⟨isFloat64_of_repr _ (-1) (-1) (by norm_num) (by norm_num) (by norm_num),
    isFloat64_of_repr _ 1 0 (by norm_num) (by norm_num) (by norm_num),
    isFloat64_of_repr _ 3 0 (by norm_num) (by norm_num) (by norm_num),
    isFloat64_of_repr _ 2 0 (by norm_num) (by norm_num) (by norm_num), ?_, ?_⟩
  · rw [fadd_exact _ _ 7 (-1) (by norm_num [abs_of_neg]) (by norm_num) (by norm_num)]
    norm_num [abs_of_neg]
  · rw [fadd_exact _ _ 3 0 (by norm_num) (by norm_num) (by norm_num)]
    norm_num

/-- C1 (as stated, refuted): with raw bounds `(2, 1, 5, 4)` the normalized box is
`(0, 0, 7, 5)`, whose right and bottom extents are not the raw width `5 - 2`
and the raw height `4 - 1`; `MeasureText` returns the box `(0, 0, 7, 5)` there. -/
theorem C1_counterexample :
    normalizeBounds 2 1 5 4 = (0, 0, 7, 5) ∧
      normalizeBounds 2 1 5 4 ≠ (0, 0, 5 - 2, 4 - 1) ∧
      (offsetBounds sampleRenderer.gc "abc").err = none ∧
      sampleRenderer.MeasureText amd64OutOfRange offsetBounds "abc" =
        { Top := 0, Left := 0, Right := 7, Bottom := 5 } := by
  have a1 : fadd 5 2 = 7 := by
    rw [fadd_exact 5 2 7 0 (by norm_num) (by norm_num) (by norm_num)]; norm_num
  have a2 : fadd 4 1 = 5 := by
    rw [fadd_exact 4 1 5 0 (by norm_num) (by norm_num) (by norm_num)]; norm_num
  have n : normalizeBounds 2 1 5 4 = (0, 0, 7, 5) := by
    rw [normalizeBounds_cases]
    norm_num [a1, a2]
  refine ⟨n, ?_, rfl, ?_⟩
  · rw [n]; norm_num
  · rw [MeasureText_of_ok amd64OutOfRange offsetBounds sampleRenderer "abc" rfl]
    have e1 : goInt amd64OutOfRange (mathCeil 7) = 7 := by
      have := goInt_mathCeil amd64OutOfRange 7 (by simp) (by simp)
      simpa using this
    have e2 : goInt amd64OutOfRange (mathCeil 5) = 5 := by
      have := goInt_mathCeil amd64OutOfRange 5 (by simp) (by simp)
      simpa using this
    simp only [offsetBounds, n, e1, e2]

/-- C1 (amended): for all raw bounds `(l, t, r, b)` of a successful bounds call,
the box that `MeasureText` builds before rounding up is anchored at `(0, 0)`; its
right extent is `r - l` when `l < 0`, `r` when `l = 0` and `r + l` when `l > 0`,
and its bottom extent is `b - t` when `t < 0`, `b` when `t = 0` and `b + t` when
`t > 0`, with the subtraction and addition of `float64`. -/
theorem C1_normalized_box (l t r b : Float64) :
    normalizeBounds l t r b =
      (0, 0, if l < 0 then fsub r l else if 0 < l then fadd r l else r,
        if t < 0 then fsub b t else if 0 < t then fadd b t else b) :=
  normalizeBounds_cases l t r b

/-- C2: when the bounds call succeeds, whatever bounds it returns, the box
returned by `MeasureText` has `Top = 0` and `Left = 0`. -/
theorem C2_top_left_zero (conv : Float64 → Int)
    (G : RasterGraphicContext → String → StringBounds)
    (rr : rasterRenderer) (body : String) (h : (G rr.gc body).err = none) :
    (rr.MeasureText conv G body).Top = 0 ∧ (rr.MeasureText conv G body).Left = 0 := by
  rw [MeasureText_of_ok conv G rr body h]
  exact ⟨rfl, rfl⟩

/-- C2 at a concrete successful call with a negative left and a positive top
offset. -/
theorem C2_top_left_zero_witness :
    (sampleBounds sampleRenderer.gc "abc").err = none ∧
      (sampleRenderer.MeasureText amd64OutOfRange sampleBounds "abc").Top = 0 ∧
      (sampleRenderer.MeasureText amd64OutOfRange sampleBounds "abc").Left = 0 :=
  ⟨rfl, C2_top_left_zero amd64OutOfRange sampleBounds sampleRenderer "abc" rfl⟩

/-- C3: if the bounds call returns an error, `MeasureText` returns the all-zero
box whatever bounds came with the error (the result type `Box` carries no
error, so none reaches the caller); and two successful calls with the same raw
bounds give the same box, whatever the renderers, contexts and strings. -/
theorem C3_error_masked (conv : Float64 → Int)
    (G : RasterGraphicContext → String → StringBounds)
    (rr : rasterRenderer) (body : String) :
    ((G rr.gc body).err ≠ none →
        rr.MeasureText conv G body = { Top := 0, Left := 0, Right := 0, Bottom := 0 }) ∧
      (∀ (G2 : RasterGraphicContext → String → StringBounds) (rr2 : rasterRenderer)
          (body2 : String),
        (G rr.gc body).err = none → (G2 rr2.gc body2).err = none →
        (G2 rr2.gc body2).left = (G rr.gc body).left →
        (G2 rr2.gc body2).top = (G rr.gc body).top →
        (G2 rr2.gc body2).right = (G rr.gc body).right →
        (G2 rr2.gc body2).bottom = (G rr.gc body).bottom →
        rr2.MeasureText conv G2 body2 = rr.MeasureText conv G body) := by
  refine ⟨MeasureText_of_err conv G rr body, ?_⟩
  intro G2 rr2 body2 h h2 hl ht hr hb
  rw [MeasureText_of_ok conv G rr body h, MeasureText_of_ok conv G2 rr2 body2 h2, hl, ht, hr, hb]

/-- C3 at a concrete failing call that hands back the bounds `(1, 2, 3, 4)`. -/
theorem C3_error_masked_witness :
    (failingBounds sampleRenderer.gc "abc").err ≠ none ∧
      (failingBounds sampleRenderer.gc "abc").right = 3 ∧
      sampleRenderer.MeasureText amd64OutOfRange failingBounds "abc" =
        { Top := 0, Left := 0, Right := 0, Bottom := 0 } :=
  ⟨by decide, rfl,
    (C3_error_masked amd64OutOfRange failingBounds sampleRenderer "abc").1 (by decide)⟩

/-- C4 (as stated, refuted): the bounds `(0, 0, 10^19, 1)` have positive width
and height, yet with the amd64 conversion the returned box has `Right = -2^63`,
so `Right - Left ≥ 1` fails. -/
theorem C4_counterexample :
    (hugeBounds sampleRenderer.gc "abc").err = none ∧
      (hugeBounds sampleRenderer.gc "abc").left < (hugeBounds sampleRenderer.gc "abc").right ∧
      (hugeBounds sampleRenderer.gc "abc").top < (hugeBounds sampleRenderer.gc "abc").bottom ∧
      (sampleRenderer.MeasureText amd64OutOfRange hugeBounds "abc").Right = -2 ^ 63 ∧
      ¬ ((sampleRenderer.MeasureText amd64OutOfRange hugeBounds "abc").Right -
          (sampleRenderer.MeasureText amd64OutOfRange hugeBounds "abc").Left ≥ 1) := by
  rw [MeasureText_hugeBounds]
  refine ⟨rfl, ?_, ?_, rfl, by norm_num⟩
  · simp only [hugeBounds]; norm_num
  · simp only [hugeBounds]; norm_num

/-- C4 (amended): when the bounds call succeeds with `float64` bounds,
`left < right` and `top < bottom`, and the extents rounded up stay below `2^63`
(`ceil(r + |l|) < 2^63` and `ceil(b + |t|) < 2^63`, the additions being those of
`float64`), the returned box has width and height at least one, whatever the
platform does with conversions out of range. -/
theorem C4_positive_extent (conv : Float64 → Int)
    (G : RasterGraphicContext → String → StringBounds)
    (rr : rasterRenderer) (body : String) (h : (G rr.gc body).err = none)
    (fl : isFloat64 (G rr.gc body).left) (ft : isFloat64 (G rr.gc body).top)
    (fr : isFloat64 (G rr.gc body).right) (fb : isFloat64 (G rr.gc body).bottom)
    (hw : (G rr.gc body).left < (G rr.gc body).right)
    (hh : (G rr.gc body).top < (G rr.gc body).bottom)
    (hr2 : ⌈fadd (G rr.gc body).right |(G rr.gc body).left|⌉ < 2 ^ 63)
    (hb2 : ⌈fadd (G rr.gc body).bottom |(G rr.gc body).top|⌉ < 2 ^ 63) :
    (rr.MeasureText conv G body).Right - (rr.MeasureText conv G body).Left ≥ 1 ∧
      (rr.MeasureText conv G body).Bottom - (rr.MeasureText conv G body).Top ≥ 1 := by
  have pos : ∀ u v : ℚ, u < v → 0 < v + |u| := by
    intro u v huv
    rcases le_or_lt 0 u with hu | hu
    · rw [abs_of_nonneg hu]; linarith
    · rw [abs_of_neg hu]; linarith
  have one : ∀ q : ℚ, 0 < q → (1 : Int) ≤ ⌈q⌉ := by
    intro q hq
    have := Int.ceil_pos.mpr hq
    omega
  have cr := one _ (fadd_abs_pos _ _ fr fl (pos _ _ hw))
  have cb := one _ (fadd_abs_pos _ _ fb ft (pos _ _ hh))
  rw [MeasureText_in_range conv G rr body h fr fb (by omega) hr2 (by omega) hb2]
  constructor
  · simpa using cr
  · simpa using cb

/-- C4 (amended) at a concrete successful call with bounds `(-1/2, 1, 3, 2)`. -/
theorem C4_positive_extent_witness :
    (sampleRenderer.MeasureText amd64OutOfRange sampleBounds "abc").Right -
          (sampleRenderer.MeasureText amd64OutOfRange sampleBounds "abc").Left ≥ 1 ∧
      (sampleRenderer.MeasureText amd64OutOfRange sampleBounds "abc").Bottom -
          (sampleRenderer.MeasureText amd64OutOfRange sampleBounds "abc").Top ≥ 1 :=
  C4_positive_extent amd64OutOfRange sampleBounds sampleRenderer "abc" rfl
    sampleBounds_facts.1 sampleBounds_facts.2.1 sampleBounds_facts.2.2.1
    sampleBounds_facts.2.2.2.1
    (by simp only [sampleBounds]; norm_num) (by simp only [sampleBounds]; norm_num)
    (by
      simp only [sampleBounds]
      rw [sampleBounds_facts.2.2.2.2.1]
      have : (⌈(7 / 2 : ℚ)⌉ : Int) = 4 := by rw [Int.ceil_eq_iff]; norm_num
      rw [this]; norm_num)
    (by
      simp only [sampleBounds]
      rw [sampleBounds_facts.2.2.2.2.2]
      have : (⌈(3 : ℚ)⌉ : Int) = 3 := by rw [Int.ceil_eq_iff]; norm_num
      rw [this]; norm_num)

/-- C9 (as stated, refuted): with the bounds `(0, 0, 10^19, 1)` and the amd64
conversion the returned `Right` is `-2^63`, not `ceil(10^19 + |0|) = 10^19`,
which no `int` holds; and with the bounds `(-2^-60, 0, 1, 1)` the returned
`Right` is `1`, not `ceil(1 + 2^-60) = 2`, because the subtraction rounds. -/
theorem C9_counterexample :
    (hugeBounds sampleRenderer.gc "abc").err = none ∧
      (sampleRenderer.MeasureText amd64OutOfRange hugeBounds "abc").Right = -2 ^ 63 ∧
      ⌈(hugeBounds sampleRenderer.gc "abc").right +
          |(hugeBounds sampleRenderer.gc "abc").left|⌉ = 10 ^ 19 ∧
      (tinyOffsetBounds sampleRenderer.gc "abc").err = none ∧
      (sampleRenderer.MeasureText amd64OutOfRange tinyOffsetBounds "abc").Right = 1 ∧
      ⌈(tinyOffsetBounds sampleRenderer.gc "abc").right +
          |(tinyOffsetBounds sampleRenderer.gc "abc").left|⌉ = 2 := by
  rw [MeasureText_hugeBounds, MeasureText_tinyOffsetBounds]
  refine ⟨rfl, rfl, ?_, rfl, rfl, ?_⟩
  · simp only [hugeBounds]
    rw [Int.ceil_eq_iff]
    norm_num
  · simp only [tinyOffsetBounds]
    rw [Int.ceil_eq_iff]
    norm_num [abs_of_neg]

/-- C9 (amended): when the bounds call succeeds with `float64` bounds
`(l, t, r, b)` whose extents rounded up lie in the `int` range
(`-2^63 ≤ ceil(r + |l|) < 2^63` and likewise for `b + |t|`, the additions being
those of `float64`), `MeasureText` returns exactly
`Box{Top: 0, Left: 0, Right: ceil(r + |l|), Bottom: ceil(b + |t|)}`; a negative
offset is subtracted from the opposite extent and a positive one is added to
it, so for `l > 0` the reported width is `ceil(r + l)` (and likewise for `t > 0`
and the height). -/
theorem C9_measure_exact (conv : Float64 → Int)
    (G : RasterGraphicContext → String → StringBounds)
    (rr : rasterRenderer) (body : String) (h : (G rr.gc body).err = none)
    (fr : isFloat64 (G rr.gc body).right) (fb : isFloat64 (G rr.gc body).bottom)
    (hr1 : -2 ^ 63 ≤ ⌈fadd (G rr.gc body).right |(G rr.gc body).left|⌉)
    (hr2 : ⌈fadd (G rr.gc body).right |(G rr.gc body).left|⌉ < 2 ^ 63)
    (hb1 : -2 ^ 63 ≤ ⌈fadd (G rr.gc body).bottom |(G rr.gc body).top|⌉)
    (hb2 : ⌈fadd (G rr.gc body).bottom |(G rr.gc body).top|⌉ < 2 ^ 63) :
    rr.MeasureText conv G body =
        { Top := 0, Left := 0
          Right := ⌈fadd (G rr.gc body).right |(G rr.gc body).left|⌉
          Bottom := ⌈fadd (G rr.gc body).bottom |(G rr.gc body).top|⌉ } ∧
      ((G rr.gc body).left < 0 →
        (rr.MeasureText conv G body).Right =
          ⌈fsub (G rr.gc body).right (G rr.gc body).left⌉) ∧
      (0 < (G rr.gc body).left →
        (rr.MeasureText conv G body).Right - (rr.MeasureText conv G body).Left =
          ⌈fadd (G rr.gc body).right (G rr.gc body).left⌉) ∧
      ((G rr.gc body).top < 0 →
        (rr.MeasureText conv G body).Bottom =
          ⌈fsub (G rr.gc body).bottom (G rr.gc body).top⌉) ∧
      (0 < (G rr.gc body).top →
        (rr.MeasureText conv G body).Bottom - (rr.MeasureText conv G body).Top =
          ⌈fadd (G rr.gc body).bottom (G rr.gc body).top⌉) := by
  rw [MeasureText_in_range conv G rr body h fr fb hr1 hr2 hb1 hb2]
  refine ⟨rfl, ?_, ?_, ?_, ?_⟩
  · intro hl; simp [abs_of_neg hl, fadd, fsub, sub_eq_add_neg]
  · intro hl; simp [abs_of_pos hl]
  · intro ht; simp [abs_of_neg ht, fadd, fsub, sub_eq_add_neg]
  · intro ht; simp [abs_of_pos ht]

/-- C9 (amended) at a concrete successful call with bounds `(-1/2, 1, 3, 2)`:
the box is `(0, 0, 4, 3)`. -/
theorem C9_measure_exact_witness :
    (sampleBounds sampleRenderer.gc "abc").err = none ∧
      sampleRenderer.MeasureText amd64OutOfRange sampleBounds "abc" =
        { Top := 0, Left := 0, Right := 4, Bottom := 3 } := by
  have c1 : (⌈fadd 3 |(-1 / 2 : ℚ)|⌉ : Int) = 4 := by
    rw [sampleBounds_facts.2.2.2.2.1, Int.ceil_eq_iff]; norm_num
  have c2 : (⌈fadd 2 |(1 : ℚ)|⌉ : Int) = 3 := by
    rw [sampleBounds_facts.2.2.2.2.2, Int.ceil_eq_iff]; norm_num
  refine ⟨rfl, ?_⟩
  rw [(C9_measure_exact amd64OutOfRange sampleBounds sampleRenderer "abc" rfl
    sampleBounds_facts.2.2.1 sampleBounds_facts.2.2.2.1
    (by simp only [sampleBounds]; rw [c1]; norm_num)
    (by simp only [sampleBounds]; rw [c1]; norm_num)
    (by simp only [sampleBounds]; rw [c2]; norm_num)
    (by simp only [sampleBounds]; rw [c2]; norm_num)).1]
  simp only [sampleBounds, c1, c2]

/-! ## Circle -/

/-- The state after one more call is one step of the interpreter. -/
theorem state_call (s0 : GCState) (gc : RasterGraphicContext) (c : GCCall) :
    (gc.call c).state s0 = (gc.state s0).step c := by
  simp [RasterGraphicContext.state, RasterGraphicContext.call, List.foldl_append]

/-- The calls of `Circle`, appended to those already made. -/
theorem Circle_calls (rr : rasterRenderer) (radius : Float64) (x y : Int) :
    (rr.Circle radius x y).gc.calls =
      rr.gc.calls ++
        [ .MoveTo (fsub (float64OfInt x) radius) (float64OfInt y),
          .QuadCurveTo (float64OfInt x) (float64OfInt y)
            (float64OfInt x) (fsub (float64OfInt y) radius),
          .QuadCurveTo (float64OfInt x) (float64OfInt y)
            (fadd (float64OfInt x) radius) (float64OfInt y),
          .QuadCurveTo (float64OfInt x) (float64OfInt y)
            (float64OfInt x) (fadd (float64OfInt y) radius),
          .QuadCurveTo (float64OfInt x) (float64OfInt y)
            (fsub (float64OfInt x) radius) (float64OfInt y),
          .Close,
          .FillStroke ] := by
  simp [rasterRenderer.Circle, RasterGraphicContext.call, List.append_assoc]

/-- The state after `Circle`: the six path components are appended to the
current path, which is then rasterized by `FillStroke`. -/
theorem Circle_state (rr : rasterRenderer) (radius : Float64) (x y : Int) (s0 : GCState) :
    (rr.Circle radius x y).gc.state s0 =
      GCState.paint
        { rr.gc.state s0 with
          path := (rr.gc.state s0).path ++
            [ .MoveTo (fsub (float64OfInt x) radius) (float64OfInt y),
              .QuadCurveTo (float64OfInt x) (float64OfInt y)
                (float64OfInt x) (fsub (float64OfInt y) radius),
              .QuadCurveTo (float64OfInt x) (float64OfInt y)
                (fadd (float64OfInt x) radius) (float64OfInt y),
              .QuadCurveTo (float64OfInt x) (float64OfInt y)
                (float64OfInt x) (fadd (float64OfInt y) radius),
              .QuadCurveTo (float64OfInt x) (float64OfInt y)
                (fsub (float64OfInt x) radius) (float64OfInt y),
              .Close ] }
        .FillStroke := by
  simp [rasterRenderer.Circle, state_call, GCState.step, GCState.paint, List.append_assoc]

/-- The segments of a path of the shape `Circle` appends (centre `(xf, yf)`,
anchors at `a`, `c` on the horizontal and `b`, `d` on the vertical through the
centre), whatever the current point was before: four quadratic segments with
the centre as control point, and the closing line. -/
theorem circlePath_segments (xf yf a b c d : Float64)
    (cur start : Option (Float64 × Float64)) :
    segmentsFrom cur start
        [ .MoveTo a yf, .QuadCurveTo xf yf xf b, .QuadCurveTo xf yf c yf,
          .QuadCurveTo xf yf xf d, .QuadCurveTo xf yf a yf, .Close ] =
      [ .quad (a, yf) (xf, yf) (xf, b), .quad (xf, b) (xf, yf) (c, yf),
        .quad (c, yf) (xf, yf) (xf, d), .quad (xf, d) (xf, yf) (a, yf),
        .line (a, yf) (a, yf) ] := by
  simp [segmentsFrom]

/-- C5: `Circle` issues to the graphics context exactly `MoveTo` the west point,
four `QuadCurveTo` (control point the centre) ending at north, east, south and
west, then `Close`, then one `FillStroke`, after the calls made before, and
changes nothing else of the renderer.  The centre is `(float64(x), float64(y))`
and the anchors are that centre minus or plus the radius, in `float64`. -/
theorem C5_Circle_commands (rr : rasterRenderer) (radius : Float64) (x y : Int) :
    (rr.Circle radius x y).gc.calls =
        rr.gc.calls ++
          [ .MoveTo (fsub (float64OfInt x) radius) (float64OfInt y),
            .QuadCurveTo (float64OfInt x) (float64OfInt y)
              (float64OfInt x) (fsub (float64OfInt y) radius),
            .QuadCurveTo (float64OfInt x) (float64OfInt y)
              (fadd (float64OfInt x) radius) (float64OfInt y),
            .QuadCurveTo (float64OfInt x) (float64OfInt y)
              (float64OfInt x) (fadd (float64OfInt y) radius),
            .QuadCurveTo (float64OfInt x) (float64OfInt y)
              (fsub (float64OfInt x) radius) (float64OfInt y),
            .Close,
            .FillStroke ] ∧
      (rr.Circle radius x y).i = rr.i ∧
      (rr.Circle radius x y).fontSize = rr.fontSize ∧
      (rr.Circle radius x y).fontColor = rr.fontColor ∧
      (rr.Circle radius x y).f = rr.f :=
  ⟨Circle_calls rr radius x y, rfl, rfl, rfl, rfl⟩

/-- The centre `(5, 7)` and the anchors at radius 2 are computed without
rounding. -/
theorem Circle_sample_anchors :
    float64OfInt 5 = 5 ∧ float64OfInt 7 = 7 ∧ fsub 5 2 = 3 ∧ fadd 5 2 = 7 ∧
      fsub 7 2 = 5 ∧ fadd 7 2 = 9 := by
  refine ⟨?_, ?_, ?_, ?_, ?_, ?_⟩
  · simpa [float64OfInt] using round64_intCast 5 (by norm_num)
  · simpa [float64OfInt] using round64_intCast 7 (by norm_num)
  · rw [fsub_exact 5 2 3 0 (by norm_num) (by norm_num) (by norm_num)]; norm_num
  · rw [fadd_exact 5 2 7 0 (by norm_num) (by norm_num) (by norm_num)]; norm_num
  · rw [fsub_exact 7 2 5 0 (by norm_num) (by norm_num) (by norm_num)]; norm_num
  · rw [fadd_exact 7 2 9 0 (by norm_num) (by norm_num) (by norm_num)]; norm_num

/-- Every point of the five segments of a circle path with exact anchors is the
centre moved by
`(sx * u * r, sy * v * r)` with signs `sx, sy` of absolute value at most one and
weights `u, v ≥ 0`, `u + v ≤ 1`, where `u + v = 1` only at an end of the
segment, which is a compass point. -/
theorem Circle_point_form {K : Type} [LinearOrderedField K] (radius : Float64) (x y : Int)
    (seg : Segment)
    (hseg : seg ∈
      [ Segment.quad ((x : ℚ) - radius, (y : ℚ)) ((x : ℚ), (y : ℚ)) ((x : ℚ), (y : ℚ) - radius),
        .quad ((x : ℚ), (y : ℚ) - radius) ((x : ℚ), (y : ℚ)) ((x : ℚ) + radius, (y : ℚ)),
        .quad ((x : ℚ) + radius, (y : ℚ)) ((x : ℚ), (y : ℚ)) ((x : ℚ), (y : ℚ) + radius),
        .quad ((x : ℚ), (y : ℚ) + radius) ((x : ℚ), (y : ℚ)) ((x : ℚ) - radius, (y : ℚ)),
        .line ((x : ℚ) - radius, (y : ℚ)) ((x : ℚ) - radius, (y : ℚ)) ])
    (t : K) (ht0 : 0 ≤ t) (ht1 : t ≤ 1) :
    ∃ sx sy u v : K, (sx = 1 ∨ sx = -1) ∧ (sy = 1 ∨ sy = -1) ∧ 0 ≤ u ∧ 0 ≤ v ∧ u + v ≤ 1 ∧
      (seg.pointAt t).1 = (x : K) + sx * (u * (radius : K)) ∧
      (seg.pointAt t).2 = (y : K) + sy * (v * (radius : K)) ∧
      (u + v = 1 → (u = 1 ∧ v = 0 ∧ sx = -1) ∨ (u = 0 ∧ v = 1 ∧ sy = -1) ∨
        (u = 1 ∧ v = 0 ∧ sx = 1) ∨ (u = 0 ∧ v = 1 ∧ sy = 1)) := by
  have h1 : 0 ≤ 1 - t := sub_nonneg.mpr ht1
  have hsum : (1 - t) ^ 2 + t ^ 2 ≤ 1 := by nlinarith [mul_nonneg ht0 h1]
  have hends : (1 - t) ^ 2 + t ^ 2 = 1 → t = 0 ∨ t = 1 := by
    intro h
    have h0 : t * (1 - t) = 0 := by nlinarith
    rcases mul_eq_zero.mp h0 with h2 | h2
    · exact Or.inl h2
    · exact Or.inr (by linarith)
  simp only [List.mem_cons, List.mem_singleton, List.not_mem_nil, or_false] at hseg
  rcases hseg with rfl | rfl | rfl | rfl | rfl
  · refine ⟨-1, -1, (1 - t) ^ 2, t ^ 2, Or.inr rfl, Or.inr rfl, sq_nonneg _, sq_nonneg _, hsum,
      ?_, ?_, ?_⟩
    · simp only [Segment.pointAt, quadPoint]; push_cast; ring
    · simp only [Segment.pointAt, quadPoint]; push_cast; ring
    · intro h
      rcases hends h with rfl | rfl
      · left; norm_num
      · right; left; norm_num
  · refine ⟨1, -1, t ^ 2, (1 - t) ^ 2, Or.inl rfl, Or.inr rfl, sq_nonneg _, sq_nonneg _,
      by linarith, ?_, ?_, ?_⟩
    · simp only [Segment.pointAt, quadPoint]; push_cast; ring
    · simp only [Segment.pointAt, quadPoint]; push_cast; ring
    · intro h
      rcases hends (by linarith) with rfl | rfl
      · right; left; norm_num
      · right; right; left; norm_num
  · refine ⟨1, 1, (1 - t) ^ 2, t ^ 2, Or.inl rfl, Or.inl rfl, sq_nonneg _, sq_nonneg _, hsum,
      ?_, ?_, ?_⟩
    · simp only [Segment.pointAt, quadPoint]; push_cast; ring
    · simp only [Segment.pointAt, quadPoint]; push_cast; ring
    · intro h
      rcases hends h with rfl | rfl
      · right; right; left; norm_num
      · right; right; right; norm_num
  · refine ⟨-1, 1, t ^ 2, (1 - t) ^ 2, Or.inr rfl, Or.inl rfl, sq_nonneg _, sq_nonneg _,
      by linarith, ?_, ?_, ?_⟩
    · simp only [Segment.pointAt, quadPoint]; push_cast; ring
    · simp only [Segment.pointAt, quadPoint]; push_cast; ring
    · intro h
      rcases hends (by linarith) with rfl | rfl
      · right; right; right; norm_num
      · left; norm_num
  · refine ⟨-1, 1, 1, 0, Or.inr rfl, Or.inl rfl, zero_le_one, le_refl _, by norm_num,
      ?_, ?_, ?_⟩
    · simp only [Segment.pointAt, linePoint]; push_cast; ring
    · simp only [Segment.pointAt, linePoint]; push_cast; ring
    · intro _; left; norm_num

/-- With centre `(1, 0)` and radius `3 * 2^-54` the centre is exact and the east
anchor `1 + 3 * 2^-54` rounds to `1 + 2^-52`. -/
theorem Circle_tiny_anchors :
    float64OfInt 1 = 1 ∧ float64OfInt 0 = 0 ∧ fadd 1 (3 / 2 ^ 54) = 1 + 1 / 2 ^ 52 := by
  refine ⟨?_, ?_, ?_⟩
  · simpa [float64OfInt] using round64_intCast 1 (by norm_num)
  · simpa [float64OfInt] using round64_intCast 0 (by norm_num)
  · unfold fadd
    have h := round64_eval (1 + 3 / 2 ^ 54) 0 (2 ^ 52 + 1) (by norm_num) (by norm_num)
      (by
        have := rne_of_gt_half (2 ^ 52) ((1 + 3 / 2 ^ 54) / 2 ^ max ((0 : ℤ) - 52) (-1074))
          (by norm_num) (by norm_num)
        simpa using this)
    rw [h]
    norm_num

/-- C10 (as stated, refuted): with centre `(1, 0)` and radius `r = 3 * 2^-54 > 0`
the east anchor of the path `Circle` rasterizes is at `1 + 2^-52` (the addition
`1 + r` rounds up), a point `(px, py)` of the path with
`|px - 1| + |py - 0| = 2^-52 > r`. -/
theorem C10_counterexample :
    (0 : ℚ) < 3 / 2 ^ 54 ∧
      ∃ comps : List PathComponent,
        (sampleRenderer.Circle (3 / 2 ^ 54) 1 0).gc.state sampleState =
            GCState.paint
              { sampleRenderer.gc.state sampleState with
                path := (sampleRenderer.gc.state sampleState).path ++ comps }
              .FillStroke ∧
          ∃ seg ∈ segmentsFrom none none comps, ∃ t : ℚ, 0 ≤ t ∧ t ≤ 1 ∧
            seg.pointAt t = (1 + 1 / 2 ^ 52, 0) ∧
            (3 / 2 ^ 54 : ℚ) < |(seg.pointAt t).1 - 1| + |(seg.pointAt t).2 - 0| := by
  refine ⟨by norm_num, _, Circle_state sampleRenderer (3 / 2 ^ 54) 1 0 sampleState, ?_⟩
  rw [circlePath_segments]
  obtain ⟨c1, c0, e⟩ := Circle_tiny_anchors
  have hp : (Segment.quad (float64OfInt 1, fsub (float64OfInt 0) (3 / 2 ^ 54))
      (float64OfInt 1, float64OfInt 0)
      (fadd (float64OfInt 1) (3 / 2 ^ 54), float64OfInt 0)).pointAt (1 : ℚ) =
        (1 + 1 / 2 ^ 52, 0) := by
    simp only [Segment.pointAt, quadPoint, c1, c0, e]
    norm_num
  refine ⟨_, List.mem_cons_of_mem _ (List.mem_cons_self _ _), 1, zero_le_one, le_refl _, hp, ?_⟩
  rw [hp]
  norm_num [abs_of_pos]

/-- C10 (amended): for a radius `r > 0` and a centre `(x, y)` such that
`float64(x)`, `float64(y)` and the four anchor coordinates `x - r`, `x + r`,
`y - r`, `y + r` are computed without rounding, the path that `Circle` appends
and rasterizes consists of four quadratic segments west-north, north-east,
east-south, south-west with the centre as control point, and the closing line;
every point `(px, py)` of it satisfies `|px - x| + |py - y| ≤ r`, hence
`(px - x)^2 + (py - y)^2 ≤ r^2`, with equality in the first only at the four
compass points; and the midpoint of each quadratic segment is at squared
distance `r^2 / 8` from the centre. -/
theorem C10_Circle_diamond {K : Type} [LinearOrderedField K] (radius : Float64) (x y : Int)
    (hr : 0 < radius)
    (hx : float64OfInt x = (x : ℚ)) (hy : float64OfInt y = (y : ℚ))
    (hw : fsub (x : ℚ) radius = (x : ℚ) - radius) (he : fadd (x : ℚ) radius = (x : ℚ) + radius)
    (hn : fsub (y : ℚ) radius = (y : ℚ) - radius) (hs : fadd (y : ℚ) radius = (y : ℚ) + radius)
    (rr : rasterRenderer) (s0 : GCState) :
    ∃ comps : List PathComponent,
      (rr.Circle radius x y).gc.state s0 =
          GCState.paint { rr.gc.state s0 with path := (rr.gc.state s0).path ++ comps }
            .FillStroke ∧
        ∀ cur start : Option (Float64 × Float64),
          segmentsFrom cur start comps =
            [ .quad ((x : ℚ) - radius, (y : ℚ)) ((x : ℚ), (y : ℚ)) ((x : ℚ), (y : ℚ) - radius),
              .quad ((x : ℚ), (y : ℚ) - radius) ((x : ℚ), (y : ℚ)) ((x : ℚ) + radius, (y : ℚ)),
              .quad ((x : ℚ) + radius, (y : ℚ)) ((x : ℚ), (y : ℚ)) ((x : ℚ), (y : ℚ) + radius),
              .quad ((x : ℚ), (y : ℚ) + radius) ((x : ℚ), (y : ℚ)) ((x : ℚ) - radius, (y : ℚ)),
              .line ((x : ℚ) - radius, (y : ℚ)) ((x : ℚ) - radius, (y : ℚ)) ] ∧
          (∀ seg ∈ segmentsFrom cur start comps, ∀ t : K, 0 ≤ t → t ≤ 1 →
            |(seg.pointAt t).1 - (x : K)| + |(seg.pointAt t).2 - (y : K)| ≤ (radius : K) ∧
              ((seg.pointAt t).1 - (x : K)) ^ 2 + ((seg.pointAt t).2 - (y : K)) ^ 2 ≤
                (radius : K) ^ 2 ∧
              (|(seg.pointAt t).1 - (x : K)| + |(seg.pointAt t).2 - (y : K)| = (radius : K) →
                seg.pointAt t = ((x : K) - (radius : K), (y : K)) ∨
                  seg.pointAt t = ((x : K), (y : K) - (radius : K)) ∨
                  seg.pointAt t = ((x : K) + (radius : K), (y : K)) ∨
                  seg.pointAt t = ((x : K), (y : K) + (radius : K)))) ∧
          (∀ p0 c p1 : Float64 × Float64,
            Segment.quad p0 c p1 ∈ segmentsFrom cur start comps →
              c = ((x : ℚ), (y : ℚ)) ∧
                (((Segment.quad p0 c p1).pointAt (1 / 2 : K)).1 - (x : K)) ^ 2 +
                    (((Segment.quad p0 c p1).pointAt (1 / 2 : K)).2 - (y : K)) ^ 2 =
                  (radius : K) ^ 2 / 8) := by
  refine ⟨_, Circle_state rr radius x y s0, fun cur start => ?_⟩
  rw [circlePath_segments, hx, hy, hw, he, hn, hs]
  refine ⟨rfl, ?_⟩
  have hrK : (0 : K) < (radius : K) := by exact_mod_cast hr
  constructor
  · intro seg hseg t ht0 ht1
    obtain ⟨sx, sy, u, v, hsx, hsy, hu, hv, huv, hx, hy, hend⟩ :=
      Circle_point_form radius x y seg hseg t ht0 ht1
    have hur0 : 0 ≤ u * (radius : K) := mul_nonneg hu hrK.le
    have hvr0 : 0 ≤ v * (radius : K) := mul_nonneg hv hrK.le
    have ex : |(seg.pointAt t).1 - (x : K)| = u * (radius : K) := by
      rw [hx]
      rcases hsx with rfl | rfl
      · rw [show (x : K) + 1 * (u * (radius : K)) - (x : K) = u * (radius : K) by ring,
          abs_of_nonneg hur0]
      · rw [show (x : K) + -1 * (u * (radius : K)) - (x : K) = -(u * (radius : K)) by ring,
          abs_neg, abs_of_nonneg hur0]
    have ey : |(seg.pointAt t).2 - (y : K)| = v * (radius : K) := by
      rw [hy]
      rcases hsy with rfl | rfl
      · rw [show (y : K) + 1 * (v * (radius : K)) - (y : K) = v * (radius : K) by ring,
          abs_of_nonneg hvr0]
      · rw [show (y : K) + -1 * (v * (radius : K)) - (y : K) = -(v * (radius : K)) by ring,
          abs_neg, abs_of_nonneg hvr0]
    have hle : u * (radius : K) + v * (radius : K) ≤ (radius : K) := by nlinarith
    refine ⟨by rw [ex, ey]; exact hle, ?_, ?_⟩
    · rw [← sq_abs ((seg.pointAt t).1 - (x : K)), ← sq_abs ((seg.pointAt t).2 - (y : K)), ex, ey]
      nlinarith [mul_nonneg hur0 hvr0]
    · rw [ex, ey]
      intro heq
      have huv1 : u + v = 1 := by
        have h0 : (u + v - 1) * (radius : K) = 0 := by linarith
        rcases mul_eq_zero.mp h0 with h | h
        · linarith
        · exact absurd h hrK.ne'
      rcases hend huv1 with ⟨rfl, rfl, rfl⟩ | ⟨rfl, rfl, rfl⟩ | ⟨rfl, rfl, rfl⟩ | ⟨rfl, rfl, rfl⟩
      · left; exact Prod.ext (by rw [hx]; ring) (by rw [hy]; ring)
      · right; left; exact Prod.ext (by rw [hx]; ring) (by rw [hy]; ring)
      · right; right; left; exact Prod.ext (by rw [hx]; ring) (by rw [hy]; ring)
      · right; right; right; exact Prod.ext (by rw [hx]; ring) (by rw [hy]; ring)
  · intro p0 c p1 hmem
    simp only [List.mem_cons, List.mem_singleton, Segment.quad.injEq, List.not_mem_nil,
      or_false, reduceCtorEq] at hmem
    rcases hmem with ⟨rfl, rfl, rfl⟩ | ⟨rfl, rfl, rfl⟩ | ⟨rfl, rfl, rfl⟩ | ⟨rfl, rfl, rfl⟩
    all_goals
      refine ⟨rfl, ?_⟩
      simp only [Segment.pointAt, quadPoint]
      push_cast
      ring

/-- C10 (amended) at radius 2 and centre (5, 7), where nothing rounds, on
rational parameters: the path has four quadratic segments and the closing
line, every point `(px, py)` of it has `|px - 5| + |py - 7| ≤ 2`, and the
midpoint of each quadratic segment is at squared distance `1 / 2` from the
centre. -/
theorem C10_Circle_diamond_witness :
    (0 : ℚ) < 2 ∧
      ∃ comps : List PathComponent,
        (sampleRenderer.Circle 2 5 7).gc.state sampleState =
            GCState.paint
              { sampleRenderer.gc.state sampleState with
                path := (sampleRenderer.gc.state sampleState).path ++ comps }
              .FillStroke ∧
          segmentsFrom none none comps =
            [ .quad (3, 7) (5, 7) (5, 5), .quad (5, 5) (5, 7) (7, 7),
              .quad (7, 7) (5, 7) (5, 9), .quad (5, 9) (5, 7) (3, 7),
              .line (3, 7) (3, 7) ] ∧
          (∀ seg ∈ segmentsFrom none none comps, ∀ t : ℚ, 0 ≤ t → t ≤ 1 →
            |(seg.pointAt t).1 - 5| + |(seg.pointAt t).2 - 7| ≤ 2) ∧
          (∀ p0 c p1 : Float64 × Float64,
            Segment.quad p0 c p1 ∈ segmentsFrom none none comps →
              (((Segment.quad p0 c p1).pointAt (1 / 2 : ℚ)).1 - 5) ^ 2 +
                  (((Segment.quad p0 c p1).pointAt (1 / 2 : ℚ)).2 - 7) ^ 2 = 1 / 2) := by
  obtain ⟨a5, a7, w, e, n, s⟩ := Circle_sample_anchors
  obtain ⟨comps, h1, h2⟩ :=
    @C10_Circle_diamond ℚ _ 2 5 7 (by norm_num)
      (by simpa using a5) (by simpa using a7)
      (by rw [show ((5 : ℤ) : ℚ) = 5 by norm_num, w]; norm_num)
      (by rw [show ((5 : ℤ) : ℚ) = 5 by norm_num, e]; norm_num)
      (by rw [show ((7 : ℤ) : ℚ) = 7 by norm_num, n]; norm_num)
      (by rw [show ((7 : ℤ) : ℚ) = 7 by norm_num, s]; norm_num)
      sampleRenderer sampleState
  refine ⟨by norm_num, comps, h1, ?_, fun seg hs t h0 h1 => ?_, fun p0 c p1 hq => ?_⟩
  · rw [(h2 none none).1]
    norm_num
  · have h := ((h2 none none).2.1 seg hs t h0 h1).1
    norm_num at h
    exact h
  · have h := ((h2 none none).2.2 p0 c p1 hq).2
    norm_num at h
    norm_num
    exact h

/-! ## Font colour -/

/-- C7: after `SetFontColor c`, from any prior state, the stored font colour is
`c` and the fill and stroke colours of the context are both `c` (also right
after `SetFillColor` and `SetStrokeColor` with other colours); the context is
otherwise as before (font, font size, line width, dash pattern, DPI, current
path, what was painted), and so are the renderer's font, font size and buffer. -/
theorem C7_SetFontColor (rr : rasterRenderer) (c : Color) (s0 : GCState) :
    (rr.SetFontColor c).fontColor = some c ∧
      ((rr.SetFontColor c).gc.state s0).fillColor = c ∧
      ((rr.SetFontColor c).gc.state s0).strokeColor = c ∧
      (∀ c1 c2 : Color,
        ((((rr.SetFillColor c1).SetStrokeColor c2).SetFontColor c).gc.state s0).fillColor = c ∧
        ((((rr.SetFillColor c1).SetStrokeColor c2).SetFontColor c).gc.state s0).strokeColor
          = c) ∧
      ((rr.SetFontColor c).gc.state s0).font = (rr.gc.state s0).font ∧
      ((rr.SetFontColor c).gc.state s0).fontSize = (rr.gc.state s0).fontSize ∧
      ((rr.SetFontColor c).gc.state s0).lineWidth = (rr.gc.state s0).lineWidth ∧
      ((rr.SetFontColor c).gc.state s0).dashArray = (rr.gc.state s0).dashArray ∧
      ((rr.SetFontColor c).gc.state s0).dashOffset = (rr.gc.state s0).dashOffset ∧
      ((rr.SetFontColor c).gc.state s0).dpi = (rr.gc.state s0).dpi ∧
      ((rr.SetFontColor c).gc.state s0).path = (rr.gc.state s0).path ∧
      ((rr.SetFontColor c).gc.state s0).painted = (rr.gc.state s0).painted ∧
      (rr.SetFontColor c).f = rr.f ∧
      (rr.SetFontColor c).fontSize = rr.fontSize ∧
      (rr.SetFontColor c).i = rr.i ∧
      (rr.SetFontColor c).gc.calls = rr.gc.calls ++ [.SetFillColor c, .SetStrokeColor c] := by
  have e : ∀ r : rasterRenderer, (r.SetFontColor c).gc.state s0 =
      { r.gc.state s0 with fillColor := c, strokeColor := c } := by
    intro r
    simp [rasterRenderer.SetFontColor, state_call, GCState.step]
  rw [e rr]
  refine ⟨rfl, rfl, rfl, ?_, rfl, rfl, rfl, rfl, rfl, rfl, rfl, rfl, rfl, rfl, rfl, ?_⟩
  · intro c1 c2
    rw [e]
    exact ⟨rfl, rfl⟩
  · simp [rasterRenderer.SetFontColor, RasterGraphicContext.call, List.append_assoc]

/-! ## Construction -/

/-- The buffer length of non-negative dimensions that fit. -/
theorem mul3NonNeg_fits (width height : Int) (hw : 0 ≤ width) (hh : 0 ≤ height)
    (h1 : width < 2 ^ 62) (h2 : 4 * width * height < 2 ^ 63) :
    image.mul3NonNeg 4 width height = 4 * width * height := by
  unfold image.mul3NonNeg
  rw [if_neg (by omega), if_neg (by omega), if_neg (by omega), if_neg (by omega)]

/-- The buffer `PNG` allocates for non-negative dimensions that fit. -/
theorem NewRGBA_Rect (canMake : Int → Bool) (width height : Int) (hw : 0 ≤ width)
    (hh : 0 ≤ height) (h1 : width < 2 ^ 62) (h2 : 4 * width * height < 2 ^ 63)
    (hm : canMake (4 * width * height) = true) :
    image.NewRGBA canMake (image.Rect 0 0 width height) =
      some { Pix := List.replicate (4 * width * height).toNat 0
             Stride := 4 * width
             Rect := { Min := { X := 0, Y := 0 }, Max := { X := width, Y := height } } } := by
  have hr : image.Rect 0 0 width height =
      { Min := { X := 0, Y := 0 }, Max := { X := width, Y := height } } := by
    simp [image.Rect, not_lt.mpr hw, not_lt.mpr hh]
  have hn : (0 : Int) ≤ 4 * width * height := by positivity
  unfold image.NewRGBA
  rw [hr]
  simp only [Rectangle.Dx, Rectangle.Dy, sub_zero, mul3NonNeg_fits width height hw hh h1 h2]
  rw [if_neg (not_lt.mpr hn), if_pos hm]

/-- The two outcomes of `PNG` once the buffer is allocated, by the error of the
context creation. -/
theorem PNG_eq (canMake : Int → Bool) (N : RGBA → RasterGraphicContext × Option Error)
    (width height : Int) (img : RGBA)
    (himg : image.NewRGBA canMake (image.Rect 0 0 width height) = some img) :
    PNG canMake N width height =
      if (N img).2 = none then
        some (some { i := img, gc := (N img).1, fontSize := 0, fontColor := none, f := none },
          none)
      else some (none, (N img).2) := by
  unfold PNG
  rw [himg]

/-- C8 (as stated, refuted): with a runtime that can make any slice and a
context creation that succeeds, `PNG(-1, 1)` returns a renderer whose buffer has
bounds `(-1,0)-(0,1)`, not `(0,0)-(-1,1)`, and holds one pixel, not `-1 * 1`; and
`PNG(2^31, 2^31)` returns nothing, because `image.NewRGBA` panics on the buffer
length `2^64`. -/
theorem C8_counterexample :
    PNG unlimitedMake sampleNewContext (-1) 1 =
        some (some { i := { Pix := [0, 0, 0, 0], Stride := 4,
                            Rect := { Min := { X := -1, Y := 0 }, Max := { X := 0, Y := 1 } } },
                     gc := { calls := [] }, fontSize := 0, fontColor := none, f := none },
          none) ∧
      ({ Min := { X := -1, Y := 0 }, Max := { X := 0, Y := 1 } } : Rectangle) ≠
        { Min := { X := 0, Y := 0 }, Max := { X := -1, Y := 1 } } ∧
      ((RGBA.pixelCount
          { Pix := [0, 0, 0, 0], Stride := 4,
            Rect := { Min := { X := -1, Y := 0 }, Max := { X := 0, Y := 1 } } } : Nat) : Int) ≠
        -1 * 1 ∧
      PNG unlimitedMake sampleNewContext (2 ^ 31) (2 ^ 31) = none := by
  have r1 : image.Rect 0 0 (-1) 1 =
      { Min := { X := -1, Y := 0 }, Max := { X := 0, Y := 1 } } := by decide
  have m1 : image.mul3NonNeg 4 1 1 = 4 := by
    unfold image.mul3NonNeg
    norm_num
  have b1 : image.NewRGBA unlimitedMake (image.Rect 0 0 (-1) 1) =
      some { Pix := [0, 0, 0, 0], Stride := 4,
             Rect := { Min := { X := -1, Y := 0 }, Max := { X := 0, Y := 1 } } } := by
    unfold image.NewRGBA
    rw [r1]
    simp only [Rectangle.Dx, Rectangle.Dy]
    norm_num [m1, unlimitedMake]
    rfl
  have r2 : image.Rect 0 0 (2 ^ 31) (2 ^ 31) =
      { Min := { X := 0, Y := 0 }, Max := { X := 2 ^ 31, Y := 2 ^ 31 } } := by
    unfold image.Rect
    norm_num
  have m2 : image.mul3NonNeg 4 (2 ^ 31) (2 ^ 31) = -1 := by
    unfold image.mul3NonNeg
    norm_num
  have b2 : image.NewRGBA unlimitedMake (image.Rect 0 0 (2 ^ 31) (2 ^ 31)) = none := by
    unfold image.NewRGBA
    rw [r2]
    simp only [Rectangle.Dx, Rectangle.Dy, sub_zero, m2]
    norm_num
  refine ⟨?_, by decide, by decide, ?_⟩
  · rw [PNG_eq unlimitedMake sampleNewContext (-1) 1 _ b1]
    rfl
  · unfold PNG
    rw [b2]

/-- C8 (amended): for every width ≥ 0 and height ≥ 0 for which `image.NewRGBA`
can allocate the buffer (`4 * width < 2^64`, `4 * width * height < 2^63`, and the
runtime can make a slice of that length), `PNG(width, height)` returns a
renderer with a nil error exactly when creating the graphics context on the
freshly allocated buffer succeeds; the renderer then holds that same buffer
and the returned context; the buffer has bounds `(0,0)-(width,height)` and
exactly `width * height` pixels, all zero; when context creation fails `PNG`
returns a nil renderer together with that same error. -/
theorem C8_PNG (canMake : Int → Bool) (N : RGBA → RasterGraphicContext × Option Error)
    (width height : Int) (hw : 0 ≤ width) (hh : 0 ≤ height)
    (h1 : width < 2 ^ 62) (h2 : 4 * width * height < 2 ^ 63)
    (hm : canMake (4 * width * height) = true) :
    ∃ img : RGBA,
      image.NewRGBA canMake (image.Rect 0 0 width height) = some img ∧
      ((∃ rr : rasterRenderer, PNG canMake N width height = some (some rr, none)) ↔
        (N img).2 = none) ∧
      ((N img).2 = none →
        PNG canMake N width height =
          some (some { i := img, gc := (N img).1, fontSize := 0, fontColor := none, f := none },
            none)) ∧
      ((N img).2 ≠ none → PNG canMake N width height = some (none, (N img).2)) ∧
      img.Rect = { Min := { X := 0, Y := 0 }, Max := { X := width, Y := height } } ∧
      ((img.pixelCount : Nat) : Int) = width * height ∧
      ((img.Pix.length : Nat) : Int) = 4 * width * height ∧
      (∀ v ∈ img.Pix, v = 0) := by
  obtain ⟨n, hn⟩ := Int.eq_ofNat_of_zero_le (mul_nonneg hw hh)
  have h4 : (4 * width * height).toNat = 4 * n := by
    rw [mul_assoc, hn]
    exact Int.toNat_ofNat (4 * n)
  have himg := NewRGBA_Rect canMake width height hw hh h1 h2 hm
  refine ⟨_, himg, ?_, ?_, ?_, rfl, ?_, ?_, ?_⟩
  · rw [PNG_eq canMake N width height _ himg]
    split_ifs with h
    · simp [h]
    · simp [h]
  · intro h
    rw [PNG_eq canMake N width height _ himg, if_pos h]
  · intro h
    rw [PNG_eq canMake N width height _ himg, if_neg h]
  · simp only [RGBA.pixelCount, List.length_replicate, h4, hn]
    norm_num
  · simp only [List.length_replicate, h4]
    rw [mul_assoc, hn]
    push_cast
    ring
  · intro v hv
    exact (List.mem_replicate.mp hv).2

/-- C8 (amended) at width 2 and height 1 with a runtime that can make any slice
and a context creation that succeeds: a renderer and a nil error are returned,
on a buffer of two pixels. -/
theorem C8_PNG_witness :
    ∃ img : RGBA,
      image.NewRGBA unlimitedMake (image.Rect 0 0 2 1) = some img ∧
      (∃ rr : rasterRenderer, PNG unlimitedMake sampleNewContext 2 1 = some (some rr, none)) ∧
      ((img.pixelCount : Nat) : Int) = 2 * 1 := by
  obtain ⟨img, h0, h1, -, -, -, h5, -⟩ :=
    C8_PNG unlimitedMake sampleNewContext 2 1 (by decide) (by decide) (by decide) (by decide) rfl
  exact ⟨img, h0, h1.mpr rfl, h5⟩

end Chart
